import Mathlib

/-!
Verification of the layout-and-pagination core of `pyreportstables.py`.

The Python source is shallowly embedded: lengths (inches) are modelled as
rationals, Python cell values (`None`, numbers, strings) as the inductive
`Value`, and the mutable `_Cell` / `_Row` / `Table` objects as immutable
records threaded through the build pipeline.  Code paths that raise a Python
exception are modelled with `Except String`.  Style/edge attribute plumbing
that none of the verified properties mention (colors, fonts, rendered edge
artists) is projected away from the table model; object-identity aspects of
copying and formatting are modelled separately with an explicit heap.
-/

namespace PyReports

/-- A Python cell value: `None`, a number (`int`/`float`, collapsed to one
rational constructor), or a string. -/
inductive Value where
  | none
  | num (q : ℚ)
  | str (s : String)
deriving DecidableEq, Repr, Inhabited

/-- `_Cell._valueisnumeric`: `type(self._value) in (int, float)`. -/
def Value.isnumeric : Value → Bool
  | .num _ => true
  | _ => false

/-- Python truthiness of a cell value (`if value:`): `None`, `0` and `''`
are falsy. -/
def Value.truthy : Value → Bool
  | .none => false
  | .num q => decide (q ≠ 0)
  | .str s => decide (s ≠ "")

/-- Rendering of a rational by Python `str`: integral values print without
a denominator. -/
def ratstr (q : ℚ) : String :=
  if q.den = 1 then toString q.num else toString q

/-- Python string interpolation of a value as done inside
`_Cell._mergevaluewith`, where `None` has already been replaced by `''`. -/
def Value.pystr : Value → String
  | .none => ""
  | .num q => ratstr q
  | .str s => s

/-- Python `str.replace` for a two-character pattern replaced by one
character: scan left to right, non-overlapping. -/
def replacepair (a b c : Char) : List Char → List Char
  | [] => []
  | [x] => [x]
  | x :: y :: rest =>
    if x = a ∧ y = b then c :: replacepair a b c rest
    else x :: replacepair a b c (y :: rest)

/-- `Text.format`: falsy values render as `''`; otherwise the value is
stringified and CR/LF pairs are normalised
(`.replace('\r\n','\n').replace('\n\r','\n')`).  (`expandtabs` is omitted:
no verified property involves tab characters.) -/
def textformat (v : Value) : String :=
  if v.truthy then
    String.mk (replacepair '\n' '\r' '\n' (replacepair '\r' '\n' '\n' v.pystr.data))
  else ""

/-- The value produced by `_Cell._mergevaluewith`: numeric values are summed,
anything else is concatenated as text with the owner (first argument) first. -/
def mergevalue (a b : Value) : Value :=
  if a.isnumeric ∧ b.isnumeric then
    match a, b with
    | .num qa, .num qb => .num (qa + qb)
    | _, _ => .none
  else
    .str (a.pystr ++ b.pystr)

/-- The state of one `_Cell` that the layout algorithms read and write.
`row`/`column` are the indices assigned by the containing row/table. -/
structure Cell where
  value : Value := Value.none
  x : ℚ := 0
  y : ℚ := 0
  width : ℚ := 1
  height : ℚ := 1
  rowspan : ℕ := 1
  columnspan : ℕ := 1
  row : ℕ := 0
  column : ℕ := 0
  null : Bool := false
  padding : ℚ := 9 / 4
deriving DecidableEq, Repr, Inhabited

/-- `_BaseClass.__setitem__` guarded value write (`self.set(value=...)`):
a null cell ignores the write. -/
def Cell.setvalue (c : Cell) (v : Value) : Cell :=
  if c.null then c else { c with value := v }

/-- `_Cell._mergevaluewith`: the owner absorbs the other cell's value and the
absorbed cell's value is cleared (both through the null-guarded setter). -/
def mergevaluewith (a b : Cell) : Cell × Cell :=
  (a.setvalue (mergevalue a.value b.value), b.setvalue Value.none)

/-- One `_Row`: its cells and the `_index` assigned by the table
(`None` before `Table._indexrows` has run). -/
structure Row where
  cells : List Cell := []
  index : Option ℕ := Option.none
deriving DecidableEq, Repr, Inhabited

/-- `_Row._isnull`: every cell of the row is null. -/
def Row.isnull (r : Row) : Bool := r.cells.all (·.null)

/-- `_Row._getspanranges`: the half-open column ranges claimed by cells with
`columnspan > 1`, as (start, stop) pairs. -/
def getspanranges (cells : List Cell) : List (ℕ × ℕ) :=
  (cells.filter (fun c => 1 < c.columnspan)).map
    (fun c => (c.column, c.column + c.columnspan))

/-- `_Row._canspan`: a cell may own a span iff its span exceeds 1 and its
column starts one of the recorded ranges; a 1-span cell cannot; any other
combination raises. -/
def rowcanspan (c : Cell) (sr : List (ℕ × ℕ)) : Except String Bool :=
  if 1 < c.columnspan ∧ sr.any (fun r => c.column == r.1) then Except.ok true
  else if c.columnspan = 1 then Except.ok false
  else Except.error "Multiple cells spanning multiple columns cannot overlap in a row."

/-- `_Row._inspan`: the cell's column falls inside one of the ranges. -/
def rowinspan (c : Cell) (sr : List (ℕ × ℕ)) : Bool :=
  sr.any (fun r => r.1 ≤ c.column ∧ c.column < r.2)

/-- The loop body of `_Row._setcolumnspans`: iterate the cells in order,
remembering the most recent span owner (`maincell`) by position; each
in-span non-owner cell is merged into the owner and marked null. -/
def setspansloop (sr : List (ℕ × ℕ)) (i : ℕ) (main : Option ℕ)
    (cells : List Cell) : Except String (List Cell) :=
  if h : i < cells.length then
    let c := cells.get ⟨i, h⟩
    match rowcanspan c sr with
    | Except.error e => Except.error e
    | Except.ok true => setspansloop sr (i + 1) (Option.some i) cells
    | Except.ok false =>
      if rowinspan c sr then
        match main with
        | Option.some m =>
          let a := cells.getD m default
          let p := mergevaluewith a c
          let cells1 := (cells.set m p.1).set i { p.2 with null := true }
          setspansloop sr (i + 1) main cells1
        | Option.none =>
          -- Python: `maincell._mergevaluewith(...)` on `None` raises.
          Except.error "AttributeError: NoneType has no attribute _mergevaluewith"
      else setspansloop sr (i + 1) main cells
  else Except.ok cells
termination_by cells.length - i
decreasing_by
  all_goals simp [List.length_set]
  all_goals omega

/-- `_Row._setcolumnspans`. -/
def setcolumnspans (cells : List Cell) : Except String (List Cell) :=
  setspansloop (getspanranges cells) 0 Option.none cells

/-- `_Row._buildcells`: assign each cell its column index. -/
def buildcellsfrom (i : ℕ) : List Cell → List Cell
  | [] => []
  | c :: cs => { c with column := i } :: buildcellsfrom (i + 1) cs

/-- `_Row._buildcells` starting at column 0. -/
def buildcells (cells : List Cell) : List Cell := buildcellsfrom 0 cells

/-- `_Row._build`: index the cells, then run the column-span merge. -/
def rowbuild (r : Row) : Except String Row :=
  (setcolumnspans (buildcells r.cells)).map (fun cs => { r with cells := cs })

/-- The `columnwidths` parameter: a uniform scalar width or one width per
column. -/
inductive ColWidths where
  | unif (w : ℚ)
  | seq (ws : List ℚ)
deriving DecidableEq, Repr, Inhabited

/-- The `Table` object: active rows, the overflow queue, the region bounds
and the layout switches.  `width`/`height` are always set in the model (the
source defaults them to the page type area). -/
structure Table where
  rows : List Row := []
  overflow : List Row := []
  width : ℚ := 1
  height : ℚ := 1
  rowheight : ℚ := 1 / 4
  columnwidths : ColWidths := ColWidths.unif (3 / 4)
  scalecolumns : Bool := false
  expandrows : Bool := false
  breakrows : Bool := false
  breakrowvalues : Bool := false
  padrowstotableheight : Bool := false
  tablepages : Option ℤ := Option.none
deriving DecidableEq, Repr, Inhabited

/-- `Table.__iter__` iterates `rows + overflow`; `_allrows` returns it. -/
def Table.allrows (t : Table) : List Row := t.rows ++ t.overflow

/-- Apply a per-row transformation to active and overflow rows alike, the
way the `for row in self:` loops of the source visit them. -/
def maprows (f : Row → Row) (t : Table) : Table :=
  { t with rows := t.rows.map f, overflow := t.overflow.map f }

/-- Monadic version of `maprows` for loop bodies that can raise. -/
def maprowsM (f : Row → Except String Row) (t : Table) : Except String Table := do
  let rs ← t.rows.mapM f
  let os ← t.overflow.mapM f
  Except.ok { t with rows := rs, overflow := os }

/-- `Table._indexrows` on one row with index `i`: the row and each of its
cells record the row index. -/
def indexcells (i : ℕ) (r : Row) : Row :=
  { r with index := Option.some i, cells := r.cells.map (fun c => { c with row := i }) }

/-- Number a list of rows starting at `i`. -/
def indexrowsfrom (i : ℕ) : List Row → List Row
  | [] => []
  | r :: rs => indexcells i r :: indexrowsfrom (i + 1) rs

/-- `Table._indexrows`: active and overflow rows are numbered jointly. -/
def indexrows (t : Table) : Table :=
  { t with rows := indexrowsfrom 0 t.rows,
           overflow := indexrowsfrom t.rows.length t.overflow }

/-- `Table._mergebrokenrows` on one pair of zipped cells: the kept copy's
height reverts to the nominal row height, both values (when truthy) are
joined with a newline, and `y` is decremented by the deferred copy's `y`.
These are direct attribute writes in the source, so they bypass the null
guard; the trailing null-guarded `set` call repeats the same values. -/
def mergebrokencell (t : Table) (a b : Cell) : Cell :=
  let a1 : Cell := { a with height := t.rowheight }
  let a2 : Cell :=
    if a1.value.truthy ∧ b.value.truthy then
      { a1 with value := Value.str (textformat a1.value ++ "\n" ++ textformat b.value) }
    else a1
  { a2 with y := a2.y - b.y }

/-- The `zip(row_a, row_b)` loop of `Table._mergebrokenrows`: pairs stop at
the shorter row; surplus kept cells pass through untouched. -/
def mergecells (t : Table) : List Cell → List Cell → List Cell
  | [], _ => []
  | as, [] => as
  | a :: as, b :: bs => mergebrokencell t a b :: mergecells t as bs

/-- `Table._mergebrokenrows`. -/
def mergebrokenrows (t : Table) (ra rb : Row) : Row :=
  { ra with cells := mergecells t ra.cells rb.cells }

/-- `Table._remergedata`: when both lists are populated and the last active
row shares its logical index with the first overflow row, the two halves are
rejoined; either way the overflow is folded back into the active rows and
cleared. -/
def remergedata (t : Table) : Table :=
  match t.rows.getLast?, t.overflow with
  | Option.some ra, rb :: ovfrest =>
    if ra.index = rb.index then
      { t with rows := t.rows.dropLast ++ [mergebrokenrows t ra rb] ++ ovfrest,
               overflow := [] }
    else { t with rows := t.rows ++ t.overflow, overflow := [] }
  | _, _ => t

/-- `Table._buildforstructure` for an already-built table (`_buildrows` is a
no-op once `_rowsbuilt` is set, which holds for every rebuild). -/
def buildforstructure (t : Table) : Table := indexrows (remergedata t)

/-- `Table._validatecolumnsizes`: with `scalecolumns`, a width sequence is
rescaled proportionally to the table width; a scalar width cannot be
scaled. -/
def validatecolumnsizes (t : Table) : Except String Table :=
  match t.columnwidths, t.scalecolumns with
  | ColWidths.seq ws, true =>
    let basewidth := ws.sum
    if basewidth ≠ t.width then
      Except.ok { t with columnwidths := ColWidths.seq (ws.map (fun i => t.width * i / basewidth)) }
    else Except.ok t
  | ColWidths.unif _, true =>
    Except.error "Columns cannot be scaled to the table width unless individual column widths are specified."
  | _, false => Except.ok t

/-- `Table._setrowsizes`: every cell's height is the nominal row height times
its row span. -/
def setrowsizes (t : Table) : Table :=
  maprows (fun r =>
    { r with cells := r.cells.map (fun c => { c with height := t.rowheight * (c.rowspan : ℚ) }) }) t

/-- `Table._setcolumnsizes` on one cell: a width sequence must cover the
row's columns; the cell width sums the widths across its column span. -/
def setcellcolumnsize (t : Table) (rowlen : ℕ) (c : Cell) : Except String Cell :=
  match t.columnwidths with
  | ColWidths.seq ws =>
    if rowlen ≤ ws.length then
      Except.ok { c with width := ((ws.drop c.column).take c.columnspan).sum }
    else Except.error "A mismatch between specified column widths and row columns has occurred."
  | ColWidths.unif w => Except.ok { c with width := w * (c.columnspan : ℚ) }

/-- `Table._setcolumnsizes`. -/
def setcolumnsizes (t : Table) : Except String Table :=
  maprowsM (fun r => do
    let cs ← r.cells.mapM (setcellcolumnsize t r.cells.length)
    Except.ok { r with cells := cs }) t

/-- The `spanranges` dict of `Table._getspanranges`: per column (in first
insertion order), the list of claimed half-open row ranges. -/
abbrev SpanDict := List (ℕ × List (ℕ × ℕ))

/-- `spanranges[column].append(range)` with creation on first use. -/
def dictappend (d : SpanDict) (k : ℕ) (v : ℕ × ℕ) : SpanDict :=
  if (d.lookup k).isSome then d.map (fun p => if p.1 = k then (p.1, p.2 ++ [v]) else p)
  else d ++ [(k, [v])]

/-- `Table._canspan`: a cell may own a row span iff its row span exceeds 1
and its row does not sit inside a range already claimed for its column;
otherwise a 1-span cell cannot span, and any other combination raises. -/
def tablecanspan (c : Cell) (d : SpanDict) : Except String Bool :=
  if (d.lookup c.column).isNone ∧ 1 < c.rowspan then Except.ok true
  else if (d.lookup c.column).isSome ∧ 1 < c.rowspan then
    if ¬ ((d.lookup c.column).getD []).any (fun r => r.1 ≤ c.row ∧ c.row < r.2) then
      Except.ok true
    else Except.error "Multiple cells spanning multiple rows cannot overlap in a column."
  else if c.rowspan = 1 then Except.ok false
  else Except.error "Multiple cells spanning multiple rows cannot overlap in a column."

/-- `Table._inspan`: the cell's row falls inside a range claimed for its
column. -/
def tableinspan (c : Cell) (d : SpanDict) : Bool :=
  ((d.lookup c.column).getD []).any (fun r => r.1 ≤ c.row ∧ c.row < r.2)

/-- One step of `Table._getspanranges`: a spanning cell not inside an
existing range claims `range(row, min(row + rowspan, len(rows)))`. -/
def spanrangesstep (nrows : ℕ) (d : SpanDict) (c : Cell) : Except String SpanDict := do
  let cs ← tablecanspan c d
  if cs ∧ ¬ tableinspan c d then
    let stop := if nrows < c.row + c.rowspan then nrows else c.row + c.rowspan
    Except.ok (dictappend d c.column (c.row, stop))
  else Except.ok d

/-- `Table._getspanranges`, folding over active and overflow rows. -/
def tablegetspanranges (t : Table) : Except String SpanDict :=
  t.allrows.foldlM (fun d r => r.cells.foldlM (spanrangesstep t.rows.length) d) []

/-- Read the cell object at a row/column position of the active rows
(`Table._getcell`; out-of-range access raises in Python and is unreachable
for the in-bound ranges produced by `_getspanranges`). -/
def getcellat (rows : List Row) (ri ci : ℕ) : Cell :=
  (rows.getD ri default).cells.getD ci default

/-- Write back the cell object at a row/column position. -/
def setcellat (rows : List Row) (ri ci : ℕ) (c : Cell) : List Row :=
  match rows.get? ri with
  | Option.none => rows
  | Option.some r => rows.set ri { r with cells := r.cells.set ci c }

/-- The inner `for rowindex in rowrange:` loop of `Table._setrowspans` for
one column range: remember the owner position; each non-owner cell first has
its column span widened to the owner's (rebuilding its row), then is merged
into the owner and marked null. -/
def rowspanmergeloop (ci : ℕ) (main : Option ℕ) (rows : List Row) :
    List ℕ → Except String (List Row)
  | [] => Except.ok rows
  | ri :: ris =>
    let cell := getcellat rows ri ci
    if 1 < cell.rowspan then rowspanmergeloop ci (Option.some ri) rows ris
    else
      match main with
      | Option.none => Except.error "AttributeError: NoneType has no attribute _columnspan"
      | Option.some mi => do
        let mc := getcellat rows mi ci
        let st ←
          if 1 < mc.columnspan then do
            let rows1 := setcellat rows ri ci { cell with columnspan := mc.columnspan }
            let rb ← rowbuild (rows1.getD ri default)
            let rows2 := rows1.set ri rb
            Except.ok (rows2, getcellat rows2 ri ci)
          else Except.ok (rows, cell)
        let mc1 := getcellat st.1 mi ci
        let p := mergevaluewith mc1 st.2
        let rows3 := setcellat (setcellat st.1 mi ci p.1) ri ci { p.2 with null := true }
        rowspanmergeloop ci main rows3 ris

/-- `Table._setrowspans`: run the merge loop over every claimed range of
every column. -/
def setrowspans (t : Table) : Except String Table := do
  let d ← tablegetspanranges t
  let rows ← d.foldlM (fun rows p =>
    p.2.foldlM (fun rows r =>
      rowspanmergeloop p.1 Option.none rows (List.range' r.1 (r.2 - r.1))) rows) t.rows
  Except.ok { t with rows := rows }

/-- `Table._getpaddedtextheight`: measured text height plus twice the cell
padding (points converted to inches).  `measure` stands for the external
text measurer (`Text.getheight`). -/
def getpaddedtextheight (measure : Cell → ℚ) (c : Cell) : ℚ :=
  2 * c.padding / 72 + measure c

/-- `Table._getexpansionratio`: whole extra row-height steps needed for the
padded text, clamped to be nonnegative. -/
def getexpansionsteps (measure : Cell → ℚ) (t : Table) (c : Cell) : ℤ :=
  let base := ⌈c.height / t.rowheight⌉
  let wanted := ⌈getpaddedtextheight measure c / t.rowheight⌉
  if base < wanted then wanted - base else 0

/-- The `expandindex` dict of `Table._setrowexpansion`: row index (the
`_index` attribute, possibly unset) to expansion steps. -/
abbrev ExpandIndex := List (Option ℕ × ℤ)

/-- Python dict assignment, preserving first-insertion key order. -/
def dictsetexp (d : ExpandIndex) (k : Option ℕ) (v : ℤ) : ExpandIndex :=
  if (d.lookup k).isSome then d.map (fun p => if p.1 = k then (k, v) else p)
  else d ++ [(k, v)]

/-- The per-row `max(...)` of `Table._setrowexpansion` (Python raises on an
empty cell list; the model defaults to 0 there). -/
def rowexpansionsteps (measure : Cell → ℚ) (t : Table) (r : Row) : ℤ :=
  ((r.cells.map (getexpansionsteps measure t)).max?).getD 0

/-- The `expandindex` construction of `Table._setrowexpansion`, visiting
active and overflow rows and recording only nonzero step counts. -/
def buildexpandindex (measure : Cell → ℚ) (t : Table) : ExpandIndex :=
  t.allrows.foldl (fun d r =>
    let steps := rowexpansionsteps measure t r
    if steps ≠ 0 then dictsetexp d r.index steps else d) []

/-- `Table._checkexpansion`: a cell may not exceed the table height. -/
def checkexpansion (t : Table) (c : Cell) : Except String Unit :=
  if c.height ≤ t.height then Except.ok ()
  else Except.error "The cell height exceeds the table height for the page."

/-- `Table._expandunspannedcells`: add `steps * rowheight` to every cell
with trivial row span in each recorded row, bound-checking each. -/
def expandunspannedcells (t : Table) (idx : ExpandIndex) : Except String Table :=
  idx.foldlM (fun t1 p =>
    let expansion := (p.2 : ℚ) * t1.rowheight
    maprowsM (fun r =>
      if r.index = p.1 then do
        let cs ← r.cells.mapM (fun c =>
          if ¬ 1 < c.rowspan then do
            let c1 : Cell := { c with height := c.height + expansion }
            checkexpansion t1 c1
            Except.ok c1
          else Except.ok c)
        Except.ok { r with cells := cs }
      else Except.ok r) t1) t

/-- `Table._expandspannedcells`: a row-spanning cell's height is recomputed
as its own expansion plus one row height plus the (already expanded) heights
of the same column's cells in the rows it covers. -/
def expandspannedcells (t : Table) (idx : ExpandIndex) : Except String Table :=
  idx.foldlM (fun t1 p =>
    let expansion := (p.2 : ℚ) * t1.rowheight
    maprowsM (fun r =>
      if r.index = p.1 then do
        let cs ← r.cells.mapM (fun c =>
          if 1 < c.rowspan then
            match p.1 with
            | Option.some i => do
              let added := ((List.range' (i + 1) (c.rowspan - 1)).map
                (fun j => ((t1.rows.getD j default).cells.getD c.column default).height)).sum
              let c1 : Cell := { c with height := expansion + t1.rowheight + added }
              checkexpansion t1 c1
              Except.ok c1
            | Option.none => Except.error "TypeError: unsupported operand for None index"
          else Except.ok c)
        Except.ok { r with cells := cs }
      else Except.ok r) t1) t

/-- `Table._setrowexpansion`. -/
def setrowexpansion (measure : Cell → ℚ) (t : Table) : Except String Table :=
  if ¬ t.expandrows then Except.ok t
  else do
    let idx := buildexpandindex measure t
    let t1 ← expandunspannedcells t idx
    expandspannedcells t1 idx

/-- `Table._getcolumnwidth`: the single column width under the cell's own
column index. -/
def getcolumnwidth (t : Table) (c : Cell) : ℚ :=
  match t.columnwidths with
  | ColWidths.seq ws => ws.getD c.column 0
  | ColWidths.unif w => w

/-- `for i in range(index, index + columnspan): ypos[i] -= height`, as a
positional map over the cursor list. -/
def decypos (lo span : ℕ) (d : ℚ) : ℕ → List ℚ → List ℚ
  | _, [] => []
  | i, v :: vs => (if lo ≤ i ∧ i < lo + span then v - d else v) :: decypos lo span d (i + 1) vs

/-- The inner cell loop of `Table._setpositions`: each non-null cell takes
`x` from the running width accumulator and `y` from its column cursor minus
its height, then lowers the cursor of every column it spans; the
accumulator advances by one column width for every cell, null or not. -/
def posrow (t : Table) : List ℚ → ℕ → ℚ → List Cell → (List Cell × List ℚ)
  | ypos, _, _, [] => ([], ypos)
  | ypos, index, xpos, c :: cs =>
    if c.null then
      let r := posrow t ypos (index + 1) (xpos + getcolumnwidth t c) cs
      (c :: r.1, r.2)
    else
      let c1 : Cell := { c with x := xpos, y := ypos.getD index 0 - c.height }
      let ypos1 := decypos index c.columnspan c.height 0 ypos
      let r := posrow t ypos1 (index + 1) (xpos + getcolumnwidth t c1) cs
      (c1 :: r.1, r.2)

/-- The row loop of `Table._setpositions`: the width accumulator restarts at
0 for each row, the column cursors persist across rows. -/
def posrows (t : Table) : List ℚ → List Row → (List Row × List ℚ)
  | ypos, [] => ([], ypos)
  | ypos, r :: rs =>
    let pr := posrow t ypos 0 0 r.cells
    let prs := posrows t pr.2 rs
    ({ r with cells := pr.1 } :: prs.1, prs.2)

/-- `Table._setpositions`: cursors start at the table height, one per column
of the first row, and active rows are positioned before overflow rows. -/
def setpositions (t : Table) : Table :=
  let ypos := List.replicate ((t.rows.headD default).cells.length) t.height
  let pr := posrows t ypos t.rows
  let po := posrows t pr.2 t.overflow
  { t with rows := pr.1, overflow := po.1 }

/-- The per-row height used by `Table._gettableheight`: the maximum height
among cells with trivial row span, or the nominal row height for a null or
height-less row. -/
def rowcontentheight (rh : ℚ) (r : Row) : ℚ :=
  let hs := (r.cells.filter (fun c => c.rowspan = 1)).map (·.height)
  if r.isnull ∨ hs = [] then rh else (hs.max?).getD 0

/-- Sum of per-row content heights. -/
def rowsheight (rh : ℚ) (rows : List Row) : ℚ := (rows.map (rowcontentheight rh)).sum

/-- `Table._gettableheight` over active plus overflow rows. -/
def gettableheight (t : Table) : ℚ := rowsheight t.rowheight t.allrows

/-- `totalheight / height == math.ceil(totalheight / height)`. -/
def iswholemultiple (total h : ℚ) : Bool :=
  decide (total / h = ((⌈total / h⌉ : ℤ) : ℚ))

/-- The `while` loop of `Table._padrows`, with explicit fuel (the source
loop can fail to terminate in bounded time; every verified use supplies
sufficient fuel).  The inner `break` test compares
`totalheight + rowheight / height` with its own ceiling — operator
precedence as in the source — and thus never fires. -/
def padloop (rh h : ℚ) (blank : Row) : ℕ → ℚ → List Row → (List Row × ℚ)
  | 0, total, rows => (rows, total)
  | fuel + 1, total, rows =>
    if ¬ iswholemultiple total h then
      if total + rh / h > ((⌈total + rh / h⌉ : ℤ) : ℚ) then (rows, total)
      else padloop rh h blank fuel (total + rh) (rows ++ [blank])
    else (rows, total)

/-- The `blank` row of `Table._padrows`: a copy of the last active row with
every cell's value cleared through the null-guarded setter. -/
def blankrow (t : Table) : Row :=
  let lastrow := (t.rows.getLast?).getD default
  { lastrow with cells := lastrow.cells.map (fun c => c.setvalue (Value.str "")) }

/-- `Table._padrows`: append value-cleared copies of the last row while the
running total is not a whole multiple of the table height, then re-index. -/
def padrows (fuel : ℕ) (t : Table) : Table :=
  if ¬ t.padrowstotableheight then t
  else
    let pl := padloop t.rowheight t.height (blankrow t) fuel (gettableheight t) t.rows
    indexrows { t with rows := pl.1 }

/-- `Table._settablepages`. -/
def settablepages (t : Table) : Table :=
  { t with tablepages := Option.some ⌈gettableheight t / t.height⌉ }

/-- `min(i._y for i in row)` (Python raises on an empty row; the model
defaults to 0 there, unreachable for the tables considered). -/
def rowminy (r : Row) : ℚ := ((r.cells.map (·.y)).min?).getD 0

/-- The break-detection scan of `Table._setbreak`: the `_index` of the first
row whose minimum cell `y` is negative. -/
def findbreakindex (rows : List Row) : Option ℕ :=
  match rows.find? (fun r => decide (rowminy r < 0)) with
  | Option.some r => r.index
  | Option.none => Option.none

/-- The `while adjcell._y < 0:` loop of `Table._getcellvaluebreak`, with
fuel. -/
def shiftloop (rh : ℚ) : ℕ → Cell → Cell
  | 0, c => c
  | fuel + 1, c =>
    if c.y < 0 then shiftloop rh fuel { c with y := c.y + rh, height := c.height - rh }
    else c

/-- The line-reflow loop of `Table._getcellvaluebreak`: pop trailing lines
from the kept copy until its padded text fits, accumulating them for the
deferred copy in original order. -/
def splitlinesloop (measure : Cell → ℚ) :
    ℕ → List String → List String → Cell → Except String (Cell × List String)
  | 0, _, _, _ => Except.error "fuel exhausted in value split"
  | fuel + 1, adjlines, newlines, adjcell =>
    if getpaddedtextheight measure adjcell > adjcell.height then
      match adjlines.getLast? with
      | Option.none => Except.error "IndexError: pop from an empty line list"
      | Option.some lastline =>
        let adjlines1 := adjlines.dropLast
        let adjcell1 := adjcell.setvalue (Value.str (String.intercalate "\n" adjlines1))
        splitlinesloop measure fuel adjlines1 (lastline :: newlines) adjcell1
    else Except.ok (adjcell, newlines)

/-- `Table._getcellvaluebreak`: a one-row-height cell moves wholly to the
deferred copy; a multi-row-spanning cell cannot be split; otherwise the kept
copy is shifted up in row-height steps until on-page, the deferred copy gets
the complementary height, and a truthy text value is reflowed across the two
copies.  (Wrap-enabled cells take their wrapped text from the external
renderer; the model uses the plain cell text.) -/
def getcellvaluebreak (measure : Cell → ℚ) (fuel : ℕ) (t : Table) (cell : Cell) :
    Except String (Option Cell × Cell) :=
  if cell.height = t.rowheight then Except.ok (Option.none, cell)
  else if 1 < cell.rowspan then
    Except.error "Table rendering does not support splitting a cell across pages where the cell spans multiple rows."
  else
    let adjcell := shiftloop t.rowheight fuel cell
    let newcell : Cell := { cell with height := cell.height - adjcell.height,
                                      y := cell.y + adjcell.height }
    -- `if adjcell._rowspan > 1:` span readjustment, unreachable here because
    -- the cell's row span is at most 1.
    let p : Cell × Cell :=
      if 1 < adjcell.rowspan then
        let adjspan := (⌈adjcell.height / t.rowheight⌉).toNat
        let newspan := if newcell.rowspan - adjspan = 0 then 1 else newcell.rowspan - adjspan
        ({ adjcell with rowspan := adjspan }, { newcell with rowspan := newspan })
      else (adjcell, newcell)
    if cell.value.truthy then
      let textblock := textformat cell.value
      if p.1.height = 0 then
        Except.ok (Option.some { p.1 with value := Value.str "" },
                   { p.2 with value := p.1.value })
      else do
        let r ← splitlinesloop measure fuel (textblock.splitOn "\n") [] p.1
        Except.ok (Option.some r.1,
                   ({ p.2 with value := Value.none }).setvalue
                     (Value.str (String.intercalate "\n" r.2)))
    else Except.ok (Option.some p.1, p.2)

/-- `Table._getrowvaluebreak`: split every non-null cell of the row; if every
kept copy is missing or value-less, the whole row defers.  The source would
otherwise crash later on a kept row containing missing cells; the model
raises at this point instead (unreachable when cell heights are uniform in
the row, which holds after sizing and expansion). -/
def getrowvaluebreak (measure : Cell → ℚ) (fuel : ℕ) (t : Table) (row : Row) :
    Except String (Option Row × Row) := do
  let res ← row.cells.mapM (fun c =>
    if ¬ c.null then getcellvaluebreak measure fuel t c
    else Except.ok (Option.some c, c))
  let adjcells := res.map (·.1)
  let newcells := res.map (·.2)
  if adjcells.all (fun oc => match oc with
      | Option.none => true
      | Option.some c => c.value == Value.none) then
    Except.ok (Option.none, { row with cells := newcells })
  else
    match adjcells.mapM id with
    | Option.some cs =>
      Except.ok (Option.some { row with cells := cs }, { row with cells := newcells })
    | Option.none => Except.error "AttributeError: NoneType has no attribute _height"

/-- `Table._setbreak`: find the break row; with `breakrowvalues` try a value
split of that row, keeping the bottom portion only when every kept height is
truthy; otherwise (`breakrows`) the break row and everything after it moves
to the overflow.  (The overflow filter uses value equality where Python uses
object identity; the overflow is empty whenever `_setbreak` runs inside a
build, because `_remergedata` has absorbed it.) -/
def setbreak (measure : Cell → ℚ) (fuel : ℕ) (t : Table) : Except String Table :=
  if ¬ t.breakrowvalues ∧ ¬ t.breakrows then Except.ok t
  else
    match findbreakindex t.allrows with
    | Option.none => Except.ok t
    | Option.some index =>
      let ovf := t.overflow.filter (fun r => ¬ t.rows.contains r)
      if t.breakrowvalues then
        match t.rows.get? index with
        | Option.none => Except.error "IndexError: row index out of range"
        | Option.some row => do
          let rb ← getrowvaluebreak measure fuel t row
          match rb.1 with
          | Option.some lastrow =>
            let newoverflow := [rb.2] ++ t.rows.drop (index + 1) ++ ovf
            if lastrow.cells.all (fun c => decide (c.height ≠ 0)) then
              Except.ok { t with rows := t.rows.take index ++ [lastrow], overflow := newoverflow }
            else Except.ok { t with rows := t.rows.take index, overflow := newoverflow }
          | Option.none =>
            Except.ok { t with rows := t.rows.take index, overflow := t.rows.drop index ++ ovf }
      else
        Except.ok { t with rows := t.rows.take index, overflow := t.rows.drop index ++ ovf }

/-- `Table._build` for an already-built table: structure pass, size pass and
page pass in source order.  `measure` is the external text measurer, `fuel`
bounds the two source `while` loops. -/
def build (measure : Cell → ℚ) (fuel : ℕ) (t : Table) : Except String Table := do
  let t := buildforstructure t
  let t ← validatecolumnsizes t
  let t ← setrowspans t
  let t := setrowsizes t
  let t ← setcolumnsizes t
  let t ← setrowexpansion measure t
  let t := setpositions t
  let t := padrows fuel t
  let t ← setbreak measure fuel t
  Except.ok (settablepages t)

/-- `Table.nextpage`: rotate the overflow into the active rows and rebuild
when anything remains. -/
def nextpage (measure : Cell → ℚ) (fuel : ℕ) (t : Table) : Except String Table :=
  let t1 : Table := { t with rows := t.overflow, overflow := [] }
  if t1.rows ≠ [] then build measure fuel t1 else Except.ok t1

/-- A text measurer that reports height 0 for every cell, for scenarios in
which no text measuring is exercised. -/
def zeromeasure : Cell → ℚ := fun _ => 0

/-- The kept half of a value-split row (scenario D of the spec): text
"Alpha Beta", grown to two row units, sitting at the page bottom. -/
def c4keeprow : Row :=
  { cells := [{ value := Value.str "Alpha Beta", height := 1/2, y := 0 }],
    index := Option.some 0 }

/-- The deferred half of the same split row: text "Gamma" at one row unit. -/
def c4defrow : Row :=
  { cells := [{ value := Value.str "Gamma", height := 1/4, y := 3/4 }],
    index := Option.some 0 }

/-- A table whose last active row and first overflow row are the two halves
of a previously value-split row. -/
def c4table : Table :=
  { rows := [c4keeprow], overflow := [c4defrow], rowheight := 1/4 }

/-- The same configuration with a value-less kept half. -/
def c4cextable : Table :=
  { rows := [{ cells := [{ value := Value.none, height := 1/2, y := 0 }],
               index := Option.some 0 }],
    overflow := [c4defrow], rowheight := 1/4 }

/-- One single-cell row carrying a numeric marker value. -/
def c3row (i : ℕ) : Row := { cells := [{ value := Value.num i }] }

/-- Scenario B of the spec: `breakrows`, table height two row units, five
rows of one unit each. -/
def c3table : Table :=
  { rows := [c3row 0, c3row 1, c3row 2, c3row 3, c3row 4],
    width := 1, height := 2, rowheight := 1,
    columnwidths := ColWidths.unif 1, breakrows := true }

/-- A measurer reporting text height 2/5 for every cell: with the default
padding of 2.25 points the padded text height is 2/5 + 1/16 = 37/80, which
forces one extra row-height step of expansion at row height 1/4. -/
def c8measure : Cell → ℚ := fun _ => 2/5

/-- A one-cell table with `expandrows` and `padrowstotableheight`: the
expansion doubles the row height before the padding pass runs. -/
def c8table : Table :=
  { rows := [{ cells := [{ value := Value.str "x" }] }],
    width := 1, height := 1, rowheight := 1/4,
    columnwidths := ColWidths.unif 1, expandrows := true,
    padrowstotableheight := true }

/-- A sized, indexed one-row table whose single row sits at the nominal row
height, ready for the padding pass. -/
def c8goodtable : Table :=
  { rows := [{ cells := [{ value := Value.str "x", height := 1/4, y := 3/4 }],
               index := Option.some 0 }],
    width := 1, height := 1, rowheight := 1/4,
    columnwidths := ColWidths.unif 1, padrowstotableheight := true }

/-- A measurer reporting text height 3/5 (scenario C's measured 0.6). -/
def c6measure : Cell → ℚ := fun _ => 3/5

/-- Scenario C of the spec: a single cell with `expandrows`, nominal row
height 1/4 and measured text height 3/5. -/
def c6table : Table :=
  { rows := [{ cells := [{ value := Value.str "wrapped text" }] }],
    width := 1, height := 1, rowheight := 1/4,
    columnwidths := ColWidths.unif 1, expandrows := true }

/-- The single sized row used by `c6postable`. -/
def c6row : Row :=
  { cells := [{ value := Value.str "wrapped text", height := 1/4 }],
    index := Option.some 0 }

/-- A sized, indexed single-row table for exercising `setrowexpansion`
directly. -/
def c6postable : Table :=
  { rows := [c6row],
    width := 1, height := 1, rowheight := 1/4,
    columnwidths := ColWidths.unif 1, expandrows := true }

/-- A positioned three-row table for exercising `setbreak` directly: the
third row extends below the page bottom. -/
def c3postable : Table :=
  { rows := [{ cells := [{ value := Value.num 0, y := 1, height := 1 }], index := Option.some 0 },
             { cells := [{ value := Value.num 1, y := 0, height := 1 }], index := Option.some 1 },
             { cells := [{ value := Value.num 2, y := -1, height := 1 }], index := Option.some 2 }],
    width := 1, height := 2, rowheight := 1,
    columnwidths := ColWidths.unif 1, breakrows := true }

/-!
## Block decomposition of a row for the column-span merge

`_Row._setcolumnspans` walks the freshly column-indexed cells once, merging
every cell that falls inside the most recent owner's span into that owner.
To characterise it, a row is decomposed into blocks: a 1-span cell standing
alone, or a span owner followed by exactly the cells its `columnspan`
covers.  `flatinfrom` reproduces the column assignment of `_buildcells`,
`flatoutfrom` states the expected merged row, and `spansegs` the expected
`_getspanranges` output.
-/

/-- A block of consecutive cells of one row: a single 1-span cell, or a span
owner together with the cells its span covers. -/
inductive RowBlock where
  | plain (c : Cell)
  | span (o : Cell) (ab : List Cell)
deriving DecidableEq, Repr, Inhabited

/-- The raw cells of a block, in row order. -/
def rawcells : RowBlock → List Cell
  | .plain c => [c]
  | .span o ab => o :: ab

/-- The number of cells a block occupies. -/
def blocklen (b : RowBlock) : ℕ := (rawcells b).length

/-- Total cell count of a block list. -/
def blockslen : List RowBlock → ℕ
  | [] => 0
  | b :: rest => blocklen b + blockslen rest

/-- Well-formedness of a block: a plain cell spans one column; a span owner's
`columnspan` covers exactly the cells listed after it, each of span 1. -/
def blockok : RowBlock → Bool
  | .plain c => c.columnspan == 1
  | .span o ab => o.columnspan == ab.length + 1 && ab.all (fun c => c.columnspan == 1)

/-- The raw cells of a block list. -/
def flatraw : List RowBlock → List Cell
  | [] => []
  | b :: rest => rawcells b ++ flatraw rest

/-- The cells of a block list after `_buildcells` column assignment, the
first block starting at column `off`. -/
def flatinfrom (off : ℕ) : List RowBlock → List Cell
  | [] => []
  | b :: rest => buildcellsfrom off (rawcells b) ++ flatinfrom (off + blocklen b) rest

/-- One owner/absorbed merge step as performed by `_setcolumnspans`: the
owner after `_mergevaluewith`. -/
def absorbinto (a c : Cell) : Cell := (mergevaluewith a c).1

/-- An absorbed cell after the merge: its value cleared through the
null-guarded setter, then the cell marked null. -/
def killcell (c : Cell) : Cell := { (Cell.setvalue c Value.none) with null := true }

/-- The expected output of the column-span merge for one block at column
offset `off`: the owner absorbs the values of the covered cells in order and
the covered cells are cleared and nulled. -/
def blockmerge (off : ℕ) : RowBlock → List Cell
  | .plain c => [{ c with column := off }]
  | .span o ab =>
      List.foldl absorbinto { o with column := off } (buildcellsfrom (off + 1) ab)
        :: (buildcellsfrom (off + 1) ab).map killcell

/-- The expected merged cells of a block list starting at offset `off`. -/
def flatoutfrom (off : ℕ) : List RowBlock → List Cell
  | [] => []
  | b :: rest => blockmerge off b ++ flatoutfrom (off + blocklen b) rest

/-- The span ranges a well-formed block list contributes to
`_getspanranges`, starting at offset `off`. -/
def spansegs (off : ℕ) : List RowBlock → List (ℕ × ℕ)
  | [] => []
  | RowBlock.plain _ :: rest => spansegs (off + 1) rest
  | RowBlock.span _ ab :: rest =>
      (if ab.isEmpty then [] else [(off, off + (ab.length + 1))])
        ++ spansegs (off + (ab.length + 1)) rest

/-- Folding the merge rule of `_Cell._mergevaluewith` over a list of absorbed
values. -/
def mergefold (v : Value) (vs : List Value) : Value := vs.foldl mergevalue v

/-- Value sanity of a block for re-running the merge: the owner is not null,
and each covered cell is either not null or already cleared. -/
def blockvalsok : RowBlock → Bool
  | .plain _ => true
  | .span o ab => !o.null && ab.all (fun c => !c.null || c.value == Value.none)

/-- The block decomposition of an already-merged block: the owner carries the
folded value, the covered cells are cleared and nulled. -/
def mergedblock : RowBlock → RowBlock
  | .plain c => .plain c
  | .span o ab =>
      .span { o with value := mergefold o.value (ab.map (·.value)) }
        (ab.map (fun c => { c with value := Value.none, null := true }))

/-- Scenario A of the spec: numeric values 3 and 4, the first cell spanning
two columns. -/
def c1cells : List Cell :=
  [{ value := Value.num 3, columnspan := 2 }, { value := Value.num 4 }]

/-- Scenario A as a single span block. -/
def c1blocks : List RowBlock :=
  [RowBlock.span { value := Value.num 3, columnspan := 2 } [{ value := Value.num 4 }]]

/-!
## Rectangular extents and grid tables for the positioning pass

`Table._setpositions` writes `x`/`y` from a width accumulator and per-index
cursors.  For the tiling analysis, a grid table is one whose rows each hold
one 1-span non-null cell per column, with per-row uniform heights `hs` and
table-level column widths `W`.
-/

/-- A point lies in the closed rectangular extent of a cell. -/
def extmem (c : Cell) (p : ℚ × ℚ) : Prop :=
  c.x ≤ p.1 ∧ p.1 ≤ c.x + c.width ∧ c.y ≤ p.2 ∧ p.2 ≤ c.y + c.height

/-- A point lies in the open interior of a cell's extent. -/
def intmem (c : Cell) (p : ℚ × ℚ) : Prop :=
  c.x < p.1 ∧ p.1 < c.x + c.width ∧ c.y < p.2 ∧ p.2 < c.y + c.height

/-- One grid row's cells: one cell per remaining column width, all of height
`h`, column indices counted up from `j`. -/
def gridcells (h : ℚ) : ℕ → List ℚ → List Cell
  | _, [] => []
  | j, w :: ws => { width := w, height := h, column := j } :: gridcells h (j + 1) ws

/-- Grid rows for column widths `W` and per-row heights `hs`. -/
def gridrows (W : List ℚ) : List ℚ → List Row
  | [] => []
  | h :: hs => { cells := gridcells h 0 W } :: gridrows W hs

/-- A grid table: sized rows over table-level sequence column widths. -/
def gridtable (Wt H : ℚ) (W hs : List ℚ) : Table :=
  { rows := gridrows W hs, overflow := [], width := Wt, height := H,
    columnwidths := ColWidths.seq W }

/-- The expected positioned cells of one grid row whose top edge sits at
`ytop`: `x` accumulates the column widths, `y` is the cursor minus the
height. -/
def exprowcells (h ytop : ℚ) : ℕ → ℚ → List ℚ → List Cell
  | _, _, [] => []
  | j, x, w :: ws =>
      { width := w, height := h, column := j, x := x, y := ytop - h }
        :: exprowcells h ytop (j + 1) (x + w) ws

/-- The expected positioned grid rows: each row lowers the cursor by its
height. -/
def exprows (W : List ℚ) : ℚ → List ℚ → List Row
  | _, [] => []
  | ytop, h :: hs => { cells := exprowcells h ytop 0 0 W } :: exprows W (ytop - h) hs

/-- The closed-form positioned cell of a grid table at row `r`, column `j`:
`x` is the sum of the preceding column widths, `y` is the table height minus
the heights of rows `0..r`. -/
def c2cell (W hs : List ℚ) (H : ℚ) (r j : ℕ) : Cell :=
  { width := W.getD j 0, height := hs.getD r 0, column := j,
    x := (W.take j).sum, y := H - (hs.take (r + 1)).sum }

/-- A one-cell table of height 2 whose single cell is only a quarter unit
tall: positioning leaves most of the table area uncovered. -/
def c2table : Table :=
  { rows := [{ cells := [{ value := Value.num 1, height := 1 / 4, width := 1 }] }],
    width := 1, height := 2, columnwidths := ColWidths.unif 1 }

/-!
## Object-identity model of copying and attribute writes

`_Cell.__copy__` / `_Row.__copy__` and the null-guarded attribute writes of
`_BaseClass.__setitem__`, `_BaseClass._setattrs` and `_Cell.format` are about
Python object identity, so they are modelled over an explicit store: cell and
edge objects live at numeric references, `copy` allocates fresh objects, and
writes update one reference in place.
-/

namespace HeapModel

/-- One `_Edges` object: an opaque attribute bag. -/
structure EdgeData where
  attrs : List (String × Value) := []
deriving DecidableEq, Repr, Inhabited

/-- One `_Cell` object: scalar attributes plus the `_edges` list, which holds
references to `_Edges` objects. -/
structure CellData where
  value : Value := Value.none
  height : ℚ := 1
  width : ℚ := 1
  edgerefs : List ℕ := []
  null : Bool := false
deriving DecidableEq, Repr, Inhabited

/-- The object store: allocated cell and edge objects, addressed by their
list positions. -/
structure Store where
  cells : List CellData := []
  edges : List EdgeData := []
deriving DecidableEq, Repr, Inhabited

/-- A write arriving at one cell through the public interface:
`cell[key] = value` / `cell.set(...)` / `cell.update(...)` deliver the
scalar writes, `cell.format(...)` delivers the format variant (an optional
value write standing for the cell parameters, the edge attribute bag, and
the `override_edges` flag). -/
inductive CellOp where
  | setval (v : Value)
  | setheight (q : ℚ)
  | setwidth (q : ℚ)
  | formatcell (v : Option Value) (edgeattrs : List (String × Value)) (overrideedges : Bool)
deriving DecidableEq, Repr, Inhabited

/-- Apply one write to the cell at reference `r`.  As in
`_BaseClass.__setitem__`, `_BaseClass._setattrs` and `_Cell.format`, a null
cell returns immediately and nothing is modified.  `format` first clears the
edge list when overriding, then applies the cell parameters, then appends a
freshly allocated `_Edges` object when edge attributes were given. -/
def applyop (s : Store) (r : ℕ) (op : CellOp) : Store :=
  match s.cells.get? r with
  | Option.none => s
  | Option.some c =>
    if c.null then s
    else
      match op with
      | CellOp.setval v => { s with cells := s.cells.set r { c with value := v } }
      | CellOp.setheight q => { s with cells := s.cells.set r { c with height := q } }
      | CellOp.setwidth q => { s with cells := s.cells.set r { c with width := q } }
      | CellOp.formatcell v eattrs ov =>
        let c1 := if ov then { c with edgerefs := [] } else c
        let c2 := match v with
          | Option.some vv => { c1 with value := vv }
          | Option.none => c1
        if eattrs ≠ [] then
          { s with cells := s.cells.set r { c2 with edgerefs := c2.edgerefs ++ [s.edges.length] },
                   edges := s.edges ++ [{ attrs := eattrs }] }
        else { s with cells := s.cells.set r c2 }

/-- A sequence of writes, each aimed at a cell reference (this is what
`_Row.format` / `Table.format` dispatch over a range). -/
def applyops (s : Store) (muts : List (ℕ × CellOp)) : Store :=
  muts.foldl (fun s1 m => applyop s1 m.1 m.2) s

/-- `list(i.copy() for i in self._edges)` inside `_Cell.__copy__`: allocate a
fresh copy of every referenced edge object, returning the new references. -/
def copyedges (s : Store) : List ℕ → Store × List ℕ
  | [] => (s, [])
  | e :: rest =>
    let s1 : Store := { s with edges := s.edges ++ [s.edges.getD e default] }
    let r := copyedges s1 rest
    (r.1, s.edges.length :: r.2)

/-- `_Cell.__copy__`: a fresh cell object sharing the scalar attributes but
owning freshly copied edge objects. -/
def copycell (s : Store) (r : ℕ) : Store × ℕ :=
  let c := s.cells.getD r default
  let ce := copyedges s c.edgerefs
  ({ ce.1 with cells := ce.1.cells ++ [{ c with edgerefs := ce.2 }] }, ce.1.cells.length)

/-- `_Row.__copy__`: a fresh cell object per contained cell
(`list(i.copy() for i in self._cells)`). -/
def copyrow (s : Store) : List ℕ → Store × List ℕ
  | [] => (s, [])
  | r :: rest =>
    let cc := copycell s r
    let cr := copyrow cc.1 rest
    (cr.1, cc.2 :: cr.2)

/-- A tiny concrete store: one non-null cell owning one edge object. -/
def demostore : Store :=
  { cells := [{ value := Value.num 1, edgerefs := [0] }],
    edges := [{ attrs := [("edgecolor", Value.str "k")] }] }

/-- A store holding a single null cell. -/
def nullstore : Store := { cells := [{ null := true }], edges := [] }

theorem applyop_cells_length (s : Store) (r : ℕ) (op : CellOp) :
    (applyop s r op).cells.length = s.cells.length := by
  unfold applyop
  cases h : s.cells.get? r with
  | none => rfl
  | some c =>
    by_cases hn : c.null
    · simp [hn]
    · cases op <;> simp [hn] <;> split <;> simp [List.length_set]

theorem applyop_cells_frame (s : Store) (r : ℕ) (op : CellOp) (r2 : ℕ) (h : r2 ≠ r) :
    (applyop s r op).cells.get? r2 = s.cells.get? r2 := by
  unfold applyop
  cases hc : s.cells.get? r with
  | none => rfl
  | some c =>
    by_cases hn : c.null
    · simp [hn]
    · have key : ∀ c2 : CellData, (s.cells.set r c2)[r2]? = s.cells[r2]? :=
        fun c2 => List.getElem?_set_ne (Ne.symm h)
      cases op <;> simp only [hn, if_false, Bool.false_eq_true, List.get?_eq_getElem?] <;>
        first
          | exact key _
          | (split <;> simp only [] <;> first | exact key _ | (split <;> exact key _))

theorem applyop_edges_frame (s : Store) (r : ℕ) (op : CellOp) (e : ℕ)
    (h : e < s.edges.length) : (applyop s r op).edges.get? e = s.edges.get? e := by
  unfold applyop
  cases hc : s.cells.get? r with
  | none => rfl
  | some c =>
    by_cases hn : c.null
    · simp [hn]
    · have key : ∀ x : EdgeData, (s.edges ++ [x])[e]? = s.edges[e]? :=
        fun x => List.getElem?_append_left h
      cases op <;> simp only [hn, if_false, Bool.false_eq_true, List.get?_eq_getElem?] <;>
        first
          | rfl
          | (split <;> first | rfl | exact key _)

theorem applyop_edges_length (s : Store) (r : ℕ) (op : CellOp) :
    s.edges.length ≤ (applyop s r op).edges.length := by
  unfold applyop
  cases hc : s.cells.get? r with
  | none => simp
  | some c =>
    by_cases hn : c.null
    · simp [hn]
    · cases op <;> simp [hn] <;> split <;> simp

/-- The null guard of `_BaseClass.__setitem__` / `_Cell.format` /
`_BaseClass._setattrs`: a write to a null cell leaves the store untouched. -/
theorem applyop_nullguard (s : Store) (r : ℕ) (c : CellData) (op : CellOp)
    (h : s.cells.get? r = Option.some c) (hn : c.null = true) : applyop s r op = s := by
  unfold applyop
  rw [h]
  simp [hn]

theorem applyops_cells_frame (muts : List (ℕ × CellOp)) :
    ∀ s : Store, ∀ i : ℕ, (∀ m ∈ muts, m.1 ≠ i) →
      (applyops s muts).cells.get? i = s.cells.get? i := by
  induction muts with
  | nil => intro s i _; rfl
  | cons m rest ih =>
    intro s i h
    have h1 : m.1 ≠ i := h m (List.mem_cons_self m rest)
    have h2 : ∀ m2 ∈ rest, m2.1 ≠ i := fun m2 hm2 => h m2 (List.mem_cons_of_mem m hm2)
    calc (applyops s (m :: rest)).cells.get? i
        = (applyops (applyop s m.1 m.2) rest).cells.get? i := rfl
      _ = (applyop s m.1 m.2).cells.get? i := ih (applyop s m.1 m.2) i h2
      _ = s.cells.get? i := applyop_cells_frame s m.1 m.2 i (fun hi => h1 hi.symm)

theorem applyops_edges_frame (muts : List (ℕ × CellOp)) :
    ∀ s : Store, ∀ e : ℕ, e < s.edges.length →
      (applyops s muts).edges.get? e = s.edges.get? e := by
  induction muts with
  | nil => intro s e _; rfl
  | cons m rest ih =>
    intro s e h
    have h2 : e < (applyop s m.1 m.2).edges.length :=
      lt_of_lt_of_le h (applyop_edges_length s m.1 m.2)
    calc (applyops s (m :: rest)).edges.get? e
        = (applyops (applyop s m.1 m.2) rest).edges.get? e := rfl
      _ = (applyop s m.1 m.2).edges.get? e := ih (applyop s m.1 m.2) e h2
      _ = s.edges.get? e := applyop_edges_frame s m.1 m.2 e h

theorem applyops_nullcell_frame (muts : List (ℕ × CellOp)) :
    ∀ s : Store, ∀ r : ℕ, ∀ c : CellData, s.cells.get? r = Option.some c →
      c.null = true → (applyops s muts).cells.get? r = Option.some c := by
  induction muts with
  | nil => intro s r c h _; exact h
  | cons m rest ih =>
    intro s r c h hn
    by_cases he : m.1 = r
    · have : applyop s m.1 m.2 = s := by rw [he]; exact applyop_nullguard s r c m.2 h hn
      calc (applyops s (m :: rest)).cells.get? r
          = (applyops (applyop s m.1 m.2) rest).cells.get? r := rfl
        _ = Option.some c := by rw [this]; exact ih s r c h hn
    · have h1 : (applyop s m.1 m.2).cells.get? r = Option.some c := by
        rw [applyop_cells_frame s m.1 m.2 r (fun hr => he hr.symm)]; exact h
      exact ih (applyop s m.1 m.2) r c h1 hn

theorem copyedges_cells (s : Store) (es : List ℕ) : (copyedges s es).1.cells = s.cells := by
  induction es generalizing s with
  | nil => rfl
  | cons e rest ih => simpa [copyedges] using ih _

theorem copyedges_edges_length (s : Store) (es : List ℕ) :
    s.edges.length ≤ (copyedges s es).1.edges.length := by
  induction es generalizing s with
  | nil => exact le_refl _
  | cons e rest ih =>
    have h := ih (Store.mk s.cells (s.edges ++ [s.edges.getD e default]))
    simp only [copyedges]
    refine le_trans ?_ h
    simp

theorem copyedges_edges_frame (s : Store) (es : List ℕ) (e2 : ℕ) (h : e2 < s.edges.length) :
    (copyedges s es).1.edges.get? e2 = s.edges.get? e2 := by
  induction es generalizing s with
  | nil => rfl
  | cons e rest ih =>
    have h2 : e2 < (Store.mk s.cells (s.edges ++ [s.edges.getD e default])).edges.length := by
      simp; omega
    calc (copyedges s (e :: rest)).1.edges.get? e2
        = (Store.mk s.cells (s.edges ++ [s.edges.getD e default])).edges.get? e2 := ih _ h2
      _ = s.edges.get? e2 := by
          simp only [List.get?_eq_getElem?]
          exact List.getElem?_append_left h

theorem copyedges_refs_ge (s : Store) (es : List ℕ) :
    ∀ e2 ∈ (copyedges s es).2, s.edges.length ≤ e2 := by
  induction es generalizing s with
  | nil => intro e2 h; simp [copyedges] at h
  | cons e rest ih =>
    intro e2 h
    simp only [copyedges, List.mem_cons] at h
    cases h with
    | inl h => omega
    | inr h =>
      have h3 := ih (Store.mk s.cells (s.edges ++ [s.edges.getD e default])) e2 h
      have h4 : (Store.mk s.cells (s.edges ++ [s.edges.getD e default])).edges.length
          = s.edges.length + 1 := by simp
      omega

theorem copycell_ref (s : Store) (r : ℕ) : (copycell s r).2 = s.cells.length := by
  simp [copycell, copyedges_cells]

theorem copycell_cells_length (s : Store) (r : ℕ) :
    (copycell s r).1.cells.length = s.cells.length + 1 := by
  simp [copycell, copyedges_cells]

theorem copycell_cells_frame (s : Store) (r : ℕ) (i : ℕ) (h : i < s.cells.length) :
    (copycell s r).1.cells.get? i = s.cells.get? i := by
  simp only [copycell, copyedges_cells, List.get?_eq_getElem?]
  exact List.getElem?_append_left h

theorem copycell_edges_frame (s : Store) (r : ℕ) (e : ℕ) (h : e < s.edges.length) :
    (copycell s r).1.edges.get? e = s.edges.get? e := by
  simp only [copycell]
  exact copyedges_edges_frame s _ e h

theorem copycell_edges_length (s : Store) (r : ℕ) :
    s.edges.length ≤ (copycell s r).1.edges.length := by
  simp only [copycell]
  exact copyedges_edges_length s _

/-- `_Cell.__copy__` deep-copies the edge list: the copy's edge references
all point past the pre-copy store. -/
theorem copycell_fresh_edgerefs (s : Store) (r : ℕ) :
    ∀ e ∈ ((copycell s r).1.cells.getD (copycell s r).2 default).edgerefs,
      s.edges.length ≤ e := by
  intro e he
  rw [copycell_ref] at he
  simp only [copycell, copyedges_cells, List.getD_eq_getElem?_getD] at he
  rw [List.getElem?_append_right (le_refl _)] at he
  simp at he
  exact copyedges_refs_ge s _ e he

theorem copyrow_cells_length (s : Store) (rs : List ℕ) :
    (copyrow s rs).1.cells.length = s.cells.length + rs.length := by
  induction rs generalizing s with
  | nil => rfl
  | cons r rest ih =>
    simp only [copyrow]
    rw [ih]
    rw [copycell_cells_length]
    simp
    omega

theorem copyrow_cells_frame (s : Store) (rs : List ℕ) (i : ℕ) (h : i < s.cells.length) :
    (copyrow s rs).1.cells.get? i = s.cells.get? i := by
  induction rs generalizing s with
  | nil => rfl
  | cons r rest ih =>
    simp only [copyrow]
    have h2 : i < (copycell s r).1.cells.length := by rw [copycell_cells_length]; omega
    rw [ih _ h2]
    exact copycell_cells_frame s r i h

theorem copyrow_edges_frame (s : Store) (rs : List ℕ) (e : ℕ) (h : e < s.edges.length) :
    (copyrow s rs).1.edges.get? e = s.edges.get? e := by
  induction rs generalizing s with
  | nil => rfl
  | cons r rest ih =>
    simp only [copyrow]
    have h2 : e < (copycell s r).1.edges.length :=
      lt_of_lt_of_le h (copycell_edges_length s r)
    rw [ih _ h2]
    exact copycell_edges_frame s r e h

theorem copyrow_edges_length (s : Store) (rs : List ℕ) :
    s.edges.length ≤ (copyrow s rs).1.edges.length := by
  induction rs generalizing s with
  | nil => exact le_refl _
  | cons r rest ih =>
    simp only [copyrow]
    exact le_trans (copycell_edges_length s r) (ih _)

theorem copyrow_refs_ge (s : Store) (rs : List ℕ) :
    ∀ r2 ∈ (copyrow s rs).2, s.cells.length ≤ r2 := by
  induction rs generalizing s with
  | nil => intro r2 h; simp [copyrow] at h
  | cons r rest ih =>
    intro r2 h
    simp only [copyrow, List.mem_cons] at h
    cases h with
    | inl h => rw [h, copycell_ref]
    | inr h =>
      have := ih (copycell s r).1 r2 h
      rw [copycell_cells_length] at this
      omega

end HeapModel

/-!
## Claim theorems
-/

/-- C10: for every cell that has been marked null, every public property
write is a no-op: a single item assignment / `set` / `update` / `format`
write (`applyop`) returns the store unchanged, and under an arbitrary
sequence of such writes aimed at arbitrary cells (`applyops`, the shape of a
row- or table-range `format`) the null cell's stored attributes stay exactly
as they were. -/
theorem nullcell_writes_noop (s : HeapModel.Store) (r : ℕ) (c : HeapModel.CellData)
    (muts : List (ℕ × HeapModel.CellOp))
    (h : s.cells.get? r = Option.some c) (hn : c.null = true) :
    (∀ op : HeapModel.CellOp, HeapModel.applyop s r op = s) ∧
    (HeapModel.applyops s muts).cells.get? r = Option.some c :=
  ⟨fun op => HeapModel.applyop_nullguard s r c op h hn,
   HeapModel.applyops_nullcell_frame muts s r c h hn⟩

/-- Witness for C10 at a concrete store: a value write and then a
value-write-plus-format sequence leave the null cell untouched. -/
theorem nullcell_writes_noop_witness :
    HeapModel.applyop HeapModel.nullstore 0 (HeapModel.CellOp.setval (Value.num 5))
      = HeapModel.nullstore ∧
    (HeapModel.applyops HeapModel.nullstore
        [(0, HeapModel.CellOp.setval (Value.num 5)),
         (0, HeapModel.CellOp.formatcell Option.none [("edgecolor", Value.str "k")] true)]).cells.get? 0
      = Option.some { null := true } := by
  have h := nullcell_writes_noop HeapModel.nullstore 0 { null := true }
    [(0, HeapModel.CellOp.setval (Value.num 5)),
     (0, HeapModel.CellOp.formatcell Option.none [("edgecolor", Value.str "k")] true)]
    (by decide) (by decide)
  exact ⟨h.1 _, h.2⟩

/-- C9: `_Row.__copy__` deep-copies its cells and `_Cell.__copy__`
deep-copies its edge list: every reference allocated by `copyrow` lies past
the original store, every edge reference held by a cell copy is a fresh edge
object, and any sequence of public set/format writes aimed at the copies
leaves every original cell — and every edge object the originals own —
unchanged. -/
theorem copyrow_deep_isolated (s : HeapModel.Store) (refs : List ℕ)
    (muts : List (ℕ × HeapModel.CellOp))
    (hedg : ∀ r ∈ refs, ∀ e ∈ (s.cells.getD r default).edgerefs, e < s.edges.length)
    (hmut : ∀ m ∈ muts, m.1 ∈ (HeapModel.copyrow s refs).2) :
    (∀ r2 ∈ (HeapModel.copyrow s refs).2, s.cells.length ≤ r2) ∧
    (∀ r0 : ℕ, ∀ e ∈ ((HeapModel.copycell s r0).1.cells.getD
        (HeapModel.copycell s r0).2 default).edgerefs, s.edges.length ≤ e) ∧
    (∀ r ∈ refs, r < s.cells.length →
      (HeapModel.applyops (HeapModel.copyrow s refs).1 muts).cells.get? r = s.cells.get? r ∧
      ∀ e ∈ (s.cells.getD r default).edgerefs,
        (HeapModel.applyops (HeapModel.copyrow s refs).1 muts).edges.get? e = s.edges.get? e) := by
  refine ⟨HeapModel.copyrow_refs_ge s refs, HeapModel.copycell_fresh_edgerefs s, ?_⟩
  intro r hr hrlen
  constructor
  · have hne : ∀ m ∈ muts, m.1 ≠ r := by
      intro m hm
      have := HeapModel.copyrow_refs_ge s refs m.1 (hmut m hm)
      omega
    rw [HeapModel.applyops_cells_frame muts _ r hne]
    exact HeapModel.copyrow_cells_frame s refs r hrlen
  · intro e he
    have helen : e < s.edges.length := hedg r hr e he
    have helen2 : e < (HeapModel.copyrow s refs).1.edges.length :=
      lt_of_lt_of_le helen (HeapModel.copyrow_edges_length s refs)
    rw [HeapModel.applyops_edges_frame muts _ e helen2]
    exact HeapModel.copyrow_edges_frame s refs e helen

/-- Witness for C9: copying the one-cell demo row and writing a new value
through the copy leaves the original cell and its edge object unchanged. -/
theorem copyrow_deep_isolated_witness :
    (HeapModel.applyops (HeapModel.copyrow HeapModel.demostore [0]).1
        [(1, HeapModel.CellOp.setval (Value.num 9))]).cells.get? 0
      = Option.some { value := Value.num 1, edgerefs := [0] } ∧
    (HeapModel.applyops (HeapModel.copyrow HeapModel.demostore [0]).1
        [(1, HeapModel.CellOp.setval (Value.num 9))]).edges.get? 0
      = Option.some { attrs := [("edgecolor", Value.str "k")] } := by
  have h := (copyrow_deep_isolated HeapModel.demostore [0]
      [(1, HeapModel.CellOp.setval (Value.num 9))]
      (by decide) (by decide)).2.2 0 (by decide) (by decide)
  refine ⟨h.1.trans (by decide), (h.2 0 (by decide)).trans (by decide)⟩

/-- C7: during a value-level page break, a cell whose height already equals
exactly one nominal row height is not split — it moves wholly to the
deferred copy, the kept copy contributing nothing — and splitting a cell
whose row span exceeds 1 raises a fatal error.  (The sizing passes give a
spanning cell at least `rowheight * rowspan` of height, so with a positive
row height it can never take the whole-cell-moves branch first.) -/
theorem getcellvaluebreak_guards (measure : Cell → ℚ) (fuel : ℕ) (t : Table) (cell : Cell) :
    (cell.height = t.rowheight →
      getcellvaluebreak measure fuel t cell = Except.ok (Option.none, cell)) ∧
    (1 < cell.rowspan → t.rowheight * (cell.rowspan : ℚ) ≤ cell.height →
      0 < t.rowheight →
      ∃ msg, getcellvaluebreak measure fuel t cell = Except.error msg) := by
  constructor
  · intro h
    unfold getcellvaluebreak
    rw [if_pos h]
  · intro hspan hsize hrh
    have h2 : (2 : ℚ) ≤ (cell.rowspan : ℚ) := by exact_mod_cast hspan
    have hne : cell.height ≠ t.rowheight := by
      have : t.rowheight * 2 ≤ t.rowheight * (cell.rowspan : ℚ) := by
        apply mul_le_mul_of_nonneg_left h2 (le_of_lt hrh)
      intro he
      rw [he] at hsize
      nlinarith
    refine ⟨"Table rendering does not support splitting a cell across pages where the cell spans multiple rows.", ?_⟩
    unfold getcellvaluebreak
    rw [if_neg hne, if_pos hspan]

/-- Witness for C7: a one-row-height cell defers whole; a two-row spanning
cell of height two row units raises. -/
theorem getcellvaluebreak_guards_witness :
    getcellvaluebreak zeromeasure 5 { rowheight := 1/4 }
        { value := Value.str "a", height := 1/4 }
      = Except.ok (Option.none, { value := Value.str "a", height := 1/4 }) ∧
    ∃ msg, getcellvaluebreak zeromeasure 5 { rowheight := 1/4 }
        { value := Value.str "a", height := 1/2, rowspan := 2 }
      = Except.error msg := by
  constructor
  · exact (getcellvaluebreak_guards zeromeasure 5 { rowheight := 1/4 }
      { value := Value.str "a", height := 1/4 }).1 (by norm_num)
  · exact (getcellvaluebreak_guards zeromeasure 5 { rowheight := 1/4 }
      { value := Value.str "a", height := 1/2, rowspan := 2 }).2
      (by norm_num) (by norm_num) (by norm_num)

theorem mergebrokencell_eq (t : Table) (a b : Cell) :
    mergebrokencell t a b =
      if a.value.truthy ∧ b.value.truthy then
        { a with height := t.rowheight, y := a.y - b.y,
                 value := Value.str (textformat a.value ++ "\n" ++ textformat b.value) }
      else { a with height := t.rowheight, y := a.y - b.y } := by
  unfold mergebrokencell
  by_cases h : a.value.truthy ∧ b.value.truthy
  · simp [h]
  · simp [h]

theorem mergecells_eq (t : Table) : ∀ as bs : List Cell,
    mergecells t as bs =
      (as.zip bs).map (fun p => mergebrokencell t p.1 p.2) ++ as.drop bs.length := by
  intro as
  induction as with
  | nil => intro bs; cases bs <;> simp [mergecells]
  | cons a as ih =>
    intro bs
    cases bs with
    | nil => simp [mergecells]
    | cons b bs => simp [mergecells, ih]

/-- C4 (amended): a rebuild whose last active row and first overflow row
carry the same logical row index rejoins the two halves: every zipped cell
pair collapses to the kept cell with its height restored to the nominal row
height and its `y` lowered by the deferred copy's `y`; the value becomes the
newline concatenation of the kept text first and the deferred text second
when *both* values are truthy (non-`None`, non-empty, nonzero), and stays
the kept value otherwise; surplus kept cells pass through, and the rest of
the overflow rejoins the active rows. -/
theorem remergedata_rejoins_split_rows (t : Table) (rs : List Row) (ra rb : Row)
    (rest : List Row) (hrows : t.rows = rs ++ [ra]) (hovf : t.overflow = rb :: rest)
    (hidx : ra.index = rb.index) :
    remergedata t = { t with rows := rs ++ [mergebrokenrows t ra rb] ++ rest,
                             overflow := [] } ∧
    (mergebrokenrows t ra rb).cells =
      (ra.cells.zip rb.cells).map (fun p =>
        if p.1.value.truthy ∧ p.2.value.truthy then
          { p.1 with height := t.rowheight, y := p.1.y - p.2.y,
                     value := Value.str (textformat p.1.value ++ "\n" ++ textformat p.2.value) }
        else { p.1 with height := t.rowheight, y := p.1.y - p.2.y })
      ++ ra.cells.drop rb.cells.length := by
  constructor
  · unfold remergedata
    rw [hrows, hovf, List.getLast?_concat]
    simp only [hidx, if_pos, List.dropLast_concat]
  · rw [show (mergebrokenrows t ra rb).cells = mergecells t ra.cells rb.cells from rfl]
    rw [mergecells_eq]
    congr 1
    apply List.map_congr_left
    intro p _
    exact mergebrokencell_eq t p.1 p.2

/-- Witness for C4: kept "Alpha Beta" and deferred "Gamma" re-merge to
"Alpha Beta\nGamma" at the nominal row height, and the overflow empties. -/
theorem remergedata_rejoins_split_rows_witness :
    (remergedata c4table).rows =
      [{ cells := [{ value := Value.str "Alpha Beta\nGamma", height := 1/4, y := -(3/4) }],
         index := Option.some 0 }] ∧
    (remergedata c4table).overflow = [] := by
  have h := remergedata_rejoins_split_rows c4table [] c4keeprow c4defrow []
    rfl rfl rfl
  rw [h.1]
  refine ⟨?_, rfl⟩
  have hA : textformat (Value.str "Alpha Beta") = "Alpha Beta" := by decide
  have hG : textformat (Value.str "Gamma") = "Gamma" := by decide
  have htA : (Value.str "Alpha Beta").truthy = true := by decide
  have htG : (Value.str "Gamma").truthy = true := by decide
  norm_num [c4table, c4keeprow, c4defrow, mergebrokenrows, mergecells, mergebrokencell,
    hA, hG, htA, htG]
  decide

theorem find?_first {α : Type} (p : α → Bool) : ∀ (l : List α) (i : ℕ) (hi : i < l.length),
    (∀ j (hj : j < l.length), j < i → p (l.get ⟨j, hj⟩) = false) →
    p (l.get ⟨i, hi⟩) = true →
    l.find? p = Option.some (l.get ⟨i, hi⟩) := by
  intro l
  induction l with
  | nil => intro i hi; simp at hi
  | cons a l ih =>
    intro i hi hlow hp
    cases i with
    | zero =>
      simp only [List.get] at hp
      simp [List.find?, hp]
    | succ i =>
      have ha : p a = false := hlow 0 (by simp) (Nat.succ_pos i)
      rw [List.find?_cons_of_neg _ (by simp [ha])]
      have hi2 : i < l.length := by simpa using hi
      have hr := ih i hi2 (fun j hj hji => hlow (j + 1) (by simpa using hj) (by omega))
        (by simpa using hp)
      simpa using hr

set_option maxHeartbeats 2000000 in
/-- C3: with `breakrows` set and `break_row_values` unset, the page-break
step keeps exactly the rows strictly before the first row whose minimum cell
`y` is negative and moves that row and everything after it to the overflow;
and on scenario B (table height two row units, five one-unit rows) the first
build leaves rows 1–2 active with rows 3–5 in overflow while the following
page advance leaves rows 3–4 active with row 5 in overflow. -/
theorem setbreak_breakrows_splits_at_first_negative_row
    (measure : Cell → ℚ) (fuel : ℕ) (t : Table) (i : ℕ) (hi : i < t.rows.length)
    (hbr : t.breakrows = true) (hbv : t.breakrowvalues = false) (hovf : t.overflow = [])
    (hidx : ∀ j (hj : j < t.rows.length), (t.rows.get ⟨j, hj⟩).index = Option.some j)
    (hneg : rowminy (t.rows.get ⟨i, hi⟩) < 0)
    (hnn : ∀ j (hj : j < t.rows.length), j < i → 0 ≤ rowminy (t.rows.get ⟨j, hj⟩)) :
    setbreak measure fuel t
      = Except.ok { t with rows := t.rows.take i, overflow := t.rows.drop i } ∧
    (build zeromeasure 20 c3table).map
        (fun t1 => (t1.rows.map (fun r => r.cells.map (·.value)),
                    t1.overflow.map (fun r => r.cells.map (·.value))))
      = Except.ok ([[Value.num 0], [Value.num 1]],
                   [[Value.num 2], [Value.num 3], [Value.num 4]]) ∧
    ((build zeromeasure 20 c3table).bind (nextpage zeromeasure 20)).map
        (fun t2 => (t2.rows.map (fun r => r.cells.map (·.value)),
                    t2.overflow.map (fun r => r.cells.map (·.value))))
      = Except.ok ([[Value.num 2], [Value.num 3]], [[Value.num 4]]) := by
  refine ⟨?_, ?_, ?_⟩
  · unfold setbreak
    rw [if_neg (by simp [hbr])]
    have hfind : findbreakindex t.allrows = Option.some i := by
      unfold findbreakindex
      unfold Table.allrows
      rw [hovf, List.append_nil]
      rw [find?_first (fun r => decide (rowminy r < 0)) t.rows i hi
        (fun j hj hji => by simpa using not_lt.mpr (hnn j hj hji)) (by simpa using hneg)]
      exact hidx i hi
    rw [hfind, hovf]
    simp [hbv]
  · norm_num [build, buildforstructure, remergedata, indexrows, indexrowsfrom, indexcells,
      validatecolumnsizes, setrowspans, tablegetspanranges, Table.allrows, spanrangesstep,
      tablecanspan, tableinspan, setrowsizes, maprows, setcolumnsizes, maprowsM,
      setcellcolumnsize, setrowexpansion, setpositions, posrows, posrow, decypos,
      getcolumnwidth, padrows, setbreak, findbreakindex, rowminy, settablepages,
      c3table, c3row, List.foldlM, List.mapM, List.mapM.loop, Except.pure, Except.bind,
      bind, pure, Except.map, gettableheight, rowsheight, rowcontentheight, Row.isnull]
  · norm_num [build, buildforstructure, remergedata, indexrows, indexrowsfrom, indexcells,
      validatecolumnsizes, setrowspans, tablegetspanranges, Table.allrows, spanrangesstep,
      tablecanspan, tableinspan, setrowsizes, maprows, setcolumnsizes, maprowsM,
      setcellcolumnsize, setrowexpansion, setpositions, posrows, posrow, decypos,
      getcolumnwidth, padrows, setbreak, findbreakindex, rowminy, settablepages, nextpage,
      c3table, c3row, List.foldlM, List.mapM, List.mapM.loop, Except.pure, Except.bind,
      bind, pure, Except.map, gettableheight, rowsheight, rowcontentheight, Row.isnull]
    norm_num [build, buildforstructure, remergedata, indexrows, indexrowsfrom, indexcells,
      validatecolumnsizes, setrowspans, tablegetspanranges, Table.allrows, spanrangesstep,
      tablecanspan, tableinspan, setrowsizes, maprows, setcolumnsizes, maprowsM,
      setcellcolumnsize, setrowexpansion, setpositions, posrows, posrow, decypos,
      getcolumnwidth, padrows, setbreak, findbreakindex, rowminy, settablepages, nextpage,
      c3table, c3row, List.foldlM, List.mapM, List.mapM.loop, Except.pure, Except.bind,
      bind, pure, Except.map, gettableheight, rowsheight, rowcontentheight, Row.isnull]
    simp only [List.cons_ne_nil, if_false]
    norm_num [build, buildforstructure, remergedata, indexrows, indexrowsfrom, indexcells,
      validatecolumnsizes, setrowspans, tablegetspanranges, Table.allrows, spanrangesstep,
      tablecanspan, tableinspan, setrowsizes, maprows, setcolumnsizes, maprowsM,
      setcellcolumnsize, setrowexpansion, setpositions, posrows, posrow, decypos,
      getcolumnwidth, padrows, setbreak, findbreakindex, rowminy, settablepages, nextpage,
      c3table, c3row, List.foldlM, List.mapM, List.mapM.loop, Except.pure, Except.bind,
      bind, pure, Except.map, gettableheight, rowsheight, rowcontentheight, Row.isnull]

/-- Witness for C3: a positioned three-row table whose third row dips below
the page breaks after its first two rows. -/
theorem setbreak_breakrows_witness :
    setbreak zeromeasure 5 c3postable
      = Except.ok { c3postable with rows := c3postable.rows.take 2,
                                    overflow := c3postable.rows.drop 2 } := by
  refine (setbreak_breakrows_splits_at_first_negative_row zeromeasure 5 c3postable 2
    (by norm_num [c3postable]) rfl rfl rfl ?_ ?_ ?_).1
  · intro j hj
    have hj3 : j < 3 := by simpa [c3postable] using hj
    interval_cases j <;> rfl
  · norm_num [c3postable, rowminy, List.min?]
  · intro j hj hji
    interval_cases j <;> norm_num [rowminy, c3postable, List.min?]

theorem rowcontentheight_indexcells (rh : ℚ) (i : ℕ) (r : Row) :
    rowcontentheight rh (indexcells i r) = rowcontentheight rh r := by
  unfold rowcontentheight indexcells Row.isnull
  simp only [List.all_map, List.filter_map, List.map_map]
  rfl

theorem rowsheight_indexrowsfrom (rh : ℚ) : ∀ (i : ℕ) (rows : List Row),
    rowsheight rh (indexrowsfrom i rows) = rowsheight rh rows := by
  intro i rows
  induction rows generalizing i with
  | nil => rfl
  | cons r rs ih =>
    unfold indexrowsfrom rowsheight
    simp only [List.map_cons, List.sum_cons]
    rw [rowcontentheight_indexcells]
    have h2 := ih (i + 1)
    unfold rowsheight at h2
    rw [h2]

theorem rowsheight_append (rh : ℚ) (a b : List Row) :
    rowsheight rh (a ++ b) = rowsheight rh a + rowsheight rh b := by
  simp [rowsheight]

theorem rowsheight_replicate (rh : ℚ) (k : ℕ) (r : Row) :
    rowsheight rh (List.replicate k r) = k * rowcontentheight rh r := by
  simp [rowsheight, List.map_replicate, List.sum_replicate, nsmul_eq_mul]

theorem gettableheight_indexrows (s : Table) :
    gettableheight (indexrows s) = gettableheight s := by
  show rowsheight s.rowheight (indexrowsfrom 0 s.rows ++ indexrowsfrom s.rows.length s.overflow)
      = rowsheight s.rowheight (s.rows ++ s.overflow)
  rw [rowsheight_append, rowsheight_append, rowsheight_indexrowsfrom, rowsheight_indexrowsfrom]

theorem gettableheight_setrows (t : Table) (rs : List Row) :
    gettableheight { t with rows := rs } = rowsheight t.rowheight (rs ++ t.overflow) := rfl

/-- The `while` loop of `_padrows` only ever appends copies of the blank row
and advances its counter by one nominal row height per appended copy (the
inner `break` test never fires because a number never exceeds its own
ceiling). -/
theorem padloop_spec (rh h : ℚ) (blank : Row) :
    ∀ (fuel : ℕ) (total : ℚ) (rows : List Row), ∃ k : ℕ,
      (padloop rh h blank fuel total rows).1 = rows ++ List.replicate k blank ∧
      (padloop rh h blank fuel total rows).2 = total + k * rh := by
  intro fuel
  induction fuel with
  | zero => intro total rows; exact ⟨0, by simp [padloop], by simp [padloop]⟩
  | succ fuel ih =>
    intro total rows
    unfold padloop
    by_cases hm : iswholemultiple total h
    · exact ⟨0, by simp [hm], by simp [hm]⟩
    · have hdead : ¬ (total + rh / h > ((⌈total + rh / h⌉ : ℤ) : ℚ)) :=
        not_lt.mpr (Int.le_ceil _)
      rw [if_pos (by simpa using hm), if_neg hdead]
      obtain ⟨k, h1, h2⟩ := ih (total + rh) (rows ++ [blank])
      refine ⟨k + 1, ?_, ?_⟩
      · rw [h1]
        simp [List.replicate_succ]
      · rw [h2]
        push_cast
        ring

/-- C8 (amended): the padding pass appends value-cleared copies of the last
row while its *running counter* — the initial content height advanced by one
nominal row height per append, regardless of the appended copy's actual
height — is not a whole multiple of the table height; when the blank copy's
content height equals the nominal row height, the counter coincides with the
table content height, so on completion the content height divides evenly
into whole pages. -/
theorem padrows_pads_by_rowheight_counter (fuel : ℕ) (t : Table)
    (hp : t.padrowstotableheight = true) (hovf : t.overflow = [])
    (hh : t.height ≠ 0)
    (hblank : rowcontentheight t.rowheight (blankrow t) = t.rowheight) :
    (∀ c ∈ (blankrow t).cells, c.null = false → c.value = Value.str "") ∧
    ∃ k : ℕ,
      (padrows fuel t).rows = indexrowsfrom 0 (t.rows ++ List.replicate k (blankrow t)) ∧
      gettableheight (padrows fuel t) = gettableheight t + k * t.rowheight ∧
      (iswholemultiple (gettableheight t + k * t.rowheight) t.height = true →
        ∃ m : ℤ, gettableheight (padrows fuel t) = (m : ℚ) * t.height) := by
  constructor
  · intro c hc hnull
    unfold blankrow at hc
    simp only [List.mem_map] at hc
    obtain ⟨c0, _, hc0⟩ := hc
    unfold Cell.setvalue at hc0
    by_cases h0 : c0.null
    · rw [if_pos h0] at hc0
      rw [← hc0] at hnull
      rw [hnull] at h0
      exact absurd h0 (by simp)
    · rw [if_neg h0] at hc0
      rw [← hc0]
  · obtain ⟨k, h1, h2⟩ :=
      padloop_spec t.rowheight t.height (blankrow t) fuel (gettableheight t) t.rows
    have hrows : (padrows fuel t).rows
        = indexrowsfrom 0
            (padloop t.rowheight t.height (blankrow t) fuel (gettableheight t) t.rows).1 := by
      unfold padrows
      rw [if_neg (by simp [hp])]
      rfl
    have hgt : gettableheight (padrows fuel t) = gettableheight t + k * t.rowheight := by
      unfold padrows
      rw [if_neg (by simp [hp]), gettableheight_indexrows, gettableheight_setrows, h1,
        hovf, List.append_nil, rowsheight_append, rowsheight_replicate, hblank,
        show gettableheight t = rowsheight t.rowheight (t.rows ++ t.overflow) from rfl,
        hovf, List.append_nil]
    refine ⟨k, ?_, hgt, ?_⟩
    · rw [hrows, h1]
    · intro hwm
      refine ⟨⌈(gettableheight t + k * t.rowheight) / t.height⌉, ?_⟩
      have hq : (gettableheight t + k * t.rowheight) / t.height
          = ((⌈(gettableheight t + k * t.rowheight) / t.height⌉ : ℤ) : ℚ) := by
        unfold iswholemultiple at hwm
        exact of_decide_eq_true hwm
      have ht : gettableheight t + k * t.rowheight
          = ((⌈(gettableheight t + k * t.rowheight) / t.height⌉ : ℤ) : ℚ) * t.height :=
        (div_eq_iff hh).mp hq
      rw [hgt]
      exact ht

/-- Witness for the amended C8 at a one-row table of nominal height: the
padding pass appends blank copies and its counter tracks the content
height. -/
theorem padrows_pads_by_rowheight_counter_witness :
    (∀ c ∈ (blankrow c8goodtable).cells, c.null = false → c.value = Value.str "") ∧
    ∃ k : ℕ,
      (padrows 20 c8goodtable).rows
        = indexrowsfrom 0 (c8goodtable.rows ++ List.replicate k (blankrow c8goodtable)) ∧
      gettableheight (padrows 20 c8goodtable)
        = gettableheight c8goodtable + k * c8goodtable.rowheight ∧
      (iswholemultiple (gettableheight c8goodtable + k * c8goodtable.rowheight)
          c8goodtable.height = true →
        ∃ m : ℤ, gettableheight (padrows 20 c8goodtable) = (m : ℚ) * c8goodtable.height) :=
  padrows_pads_by_rowheight_counter 20 c8goodtable rfl rfl (by norm_num [c8goodtable])
    (by norm_num [c8goodtable, blankrow, rowcontentheight, Row.isnull, Cell.setvalue,
      List.min?])

/-- Counterexample for C8 as stated: with an expanded last row the padding
pass completes while the actual table content height (3/2 here) is *not* a
whole multiple of the table height (1). -/
theorem padrows_height_multiple_cex :
    (build c8measure 20 c8table).map
        (fun t1 => (t1.padrowstotableheight, t1.height, gettableheight t1))
      = Except.ok (true, 1, 3/2) ∧
    ∀ m : ℤ, (3 : ℚ)/2 ≠ (m : ℚ) * 1 := by
  constructor
  · have hc : (⌈(37:ℚ)/20⌉ : ℤ) = 2 := by norm_num [Int.ceil_eq_iff]
    have hc1 : (⌈(1:ℚ)/2⌉ : ℤ) = 1 := by norm_num [Int.ceil_eq_iff]
    have hc2 : (⌈(3:ℚ)/4⌉ : ℤ) = 1 := by norm_num [Int.ceil_eq_iff]
    have hc3 : (⌈(5:ℚ)/4⌉ : ℤ) = 2 := by norm_num [Int.ceil_eq_iff]
    have hc4 : (⌈(3:ℚ)/2⌉ : ℤ) = 2 := by norm_num [Int.ceil_eq_iff]
    norm_num [hc, hc1, hc2, hc3, hc4, Int.ceil_one, build, buildforstructure, remergedata, indexrows, indexrowsfrom, indexcells,
      validatecolumnsizes, setrowspans, tablegetspanranges, Table.allrows, spanrangesstep,
      tablecanspan, tableinspan, setrowsizes, maprows, setcolumnsizes, maprowsM,
      setcellcolumnsize, setrowexpansion, buildexpandindex, rowexpansionsteps,
      getexpansionsteps, getpaddedtextheight, dictsetexp, expandunspannedcells,
      expandspannedcells, checkexpansion, setpositions, posrows, posrow, decypos,
      getcolumnwidth, padrows, padloop, blankrow, iswholemultiple, Cell.setvalue,
      setbreak, findbreakindex, rowminy, settablepages, c8table, c8measure,
      List.foldlM, List.mapM, List.mapM.loop, Except.pure, Except.bind,
      bind, pure, Except.map, gettableheight, rowsheight, rowcontentheight, Row.isnull,
      List.min?]
  · intro m hm
    rw [mul_one] at hm
    have h3 : (3 : ℤ) = 2 * m := by
      have h2 : (3 : ℚ) = 2 * (m : ℚ) := by linarith [hm]
      exact_mod_cast h2
    omega


theorem mapM_ok_of_pointwise {f : Cell → Except String Cell} :
    ∀ (cells : List Cell) (g : Cell → Cell),
      (∀ c ∈ cells, f c = Except.ok (g c)) →
      cells.mapM f = Except.ok (cells.map g) := by
  intro cells
  induction cells with
  | nil => intro g _; rfl
  | cons c cs ih =>
    intro g h
    rw [List.mapM_cons, h c (by simp), ih g (fun c2 hc2 => h c2 (by simp [hc2]))]
    rfl

theorem bind_ok {α β : Type} (x : α) (f : α → Except String β) :
    (Except.ok x : Except String α) >>= f = f x := rfl

theorem expandunspanned_single (t : Table) (r : Row) (steps : ℤ)
    (hrows : t.rows = [r]) (hovf : t.overflow = [])
    (hspan : ∀ c ∈ r.cells, c.rowspan = 1)
    (hbound : ∀ c ∈ r.cells, c.height + (steps : ℚ) * t.rowheight ≤ t.height) :
    expandunspannedcells t [(r.index, steps)]
      = Except.ok { t with rows := [{ r with cells := r.cells.map (fun c =>
          { c with height := c.height + (steps : ℚ) * t.rowheight }) }], overflow := [] } := by
  unfold expandunspannedcells
  simp only [List.foldlM_cons, List.foldlM_nil]
  unfold maprowsM
  rw [hrows, hovf]
  simp only [List.mapM_cons, List.mapM_nil, if_pos rfl]
  rw [mapM_ok_of_pointwise r.cells (fun c =>
      { c with height := c.height + (steps : ℚ) * t.rowheight }) ?point]
  case point =>
    intro c hc
    rw [if_pos (by have := hspan c hc; omega)]
    unfold checkexpansion
    rw [if_pos (hbound c hc)]
    rfl
  rfl

theorem expandspanned_noop (t : Table) (r : Row) (steps : ℤ) (i : Option ℕ)
    (hrows : t.rows = [r]) (hovf : t.overflow = [])
    (hspan : ∀ c ∈ r.cells, c.rowspan = 1) :
    expandspannedcells t [(i, steps)] = Except.ok t := by
  unfold expandspannedcells
  simp only [List.foldlM_cons, List.foldlM_nil]
  unfold maprowsM
  rw [hrows, hovf]
  simp only [List.mapM_cons, List.mapM_nil]
  have h1 : ({ r with cells := r.cells.map (fun c => c) } : Row) = r := by
    rw [List.map_id']
  have hT1 : ({ t with
      rows := [{ r with cells := r.cells.map (fun c => c) }],
      overflow := [] } : Table) = t := by
    rw [h1, ← hrows, ← hovf]
  have hT2 : ({ t with rows := [r], overflow := [] } : Table) = t := by
    rw [← hrows, ← hovf]
  by_cases he : r.index = i
  · rw [if_pos (by simpa using he)]
    rw [mapM_ok_of_pointwise r.cells (fun c => c) ?point]
    case point =>
      intro c hc
      rw [if_neg (by have := hspan c hc; omega)]
    exact congrArg Except.ok hT1
  · rw [if_neg (by simpa using he)]
    exact congrArg Except.ok hT2

/-- C6: the expansion ratio of a cell is
`ceil(padded text height / row height) - ceil(current height / row height)`
clamped to at least 0; for a (single-)row table of trivially row-spanned
cells the expansion pass adds the row's maximal ratio times the nominal row
height to every cell of the row; and scenario C (nominal row height 1/4,
measured text height 3/5) resolves the cell height to 3/4 through the full
build. -/
theorem setrowexpansion_ratio_formula (measure : Cell → ℚ) (t : Table) (r : Row)
    (hex : t.expandrows = true) (hrows : t.rows = [r]) (hovf : t.overflow = [])
    (hspan : ∀ c ∈ r.cells, c.rowspan = 1)
    (hbound : ∀ c ∈ r.cells,
      c.height + (rowexpansionsteps measure t r : ℚ) * t.rowheight ≤ t.height) :
    (∀ c : Cell, getexpansionsteps measure t c
      = max 0 (⌈getpaddedtextheight measure c / t.rowheight⌉ - ⌈c.height / t.rowheight⌉)) ∧
    setrowexpansion measure t = Except.ok { t with
      rows := [{ r with cells := r.cells.map (fun c =>
        { c with height := c.height + (rowexpansionsteps measure t r : ℚ) * t.rowheight }) }],
      overflow := [] } ∧
    (build c6measure 20 c6table).map
        (fun t1 => t1.rows.map (fun rr => rr.cells.map (·.height)))
      = Except.ok [[3/4]] := by
  refine ⟨?_, ?_, ?_⟩
  · intro c
    simp only [getexpansionsteps]
    split <;> omega
  · unfold setrowexpansion
    rw [if_neg (by simp [hex])]
    have hall : t.allrows = [r] := by simp [Table.allrows, hrows, hovf]
    have hidx : buildexpandindex measure t
        = if rowexpansionsteps measure t r = 0 then []
          else [(r.index, rowexpansionsteps measure t r)] := by
      unfold buildexpandindex
      rw [hall]
      by_cases hz : rowexpansionsteps measure t r = 0
      · simp [hz]
      · simp [hz, dictsetexp]
    have hcells0 : rowexpansionsteps measure t r = 0 →
        r.cells.map (fun c =>
          { c with height := c.height + ((rowexpansionsteps measure t r : ℤ) : ℚ) * t.rowheight })
          = r.cells := by
      intro hz
      rw [hz]
      have hcell : ∀ c ∈ r.cells,
          ({ c with height := c.height + (((0:ℤ) : ℚ)) * t.rowheight } : Cell) = c := by
        intro c _
        cases c
        simp
      rw [List.map_congr_left hcell, List.map_id']
    by_cases hz : rowexpansionsteps measure t r = 0
    · rw [hidx, if_pos hz]
      have hT : ({ t with
          rows := [{ r with cells := r.cells.map (fun c =>
            { c with height := c.height + ((rowexpansionsteps measure t r : ℤ) : ℚ) * t.rowheight }) }],
          overflow := [] } : Table) = t := by
        rw [hcells0 hz]
        have h1 : ({ r with cells := r.cells } : Row) = r := rfl
        rw [h1, ← hrows, ← hovf]
      rw [hT]
      rfl
    · rw [hidx, if_neg hz]
      have hA := expandunspanned_single t r (rowexpansionsteps measure t r) hrows hovf hspan hbound
      rw [show (do
          let t1 ← expandunspannedcells t [(r.index, rowexpansionsteps measure t r)]
          expandspannedcells t1 [(r.index, rowexpansionsteps measure t r)])
          = (expandunspannedcells t [(r.index, rowexpansionsteps measure t r)]) >>=
            (fun t1 => expandspannedcells t1 [(r.index, rowexpansionsteps measure t r)]) from rfl]
      rw [hA, bind_ok]
      refine expandspanned_noop _ _ _ _ rfl rfl ?_
      intro c hc
      simp only [List.mem_map] at hc
      obtain ⟨c0, hc0, hc0e⟩ := hc
      rw [← hc0e]
      exact hspan c0 hc0
  · have hc : (⌈(53:ℚ)/20⌉ : ℤ) = 3 := by norm_num [Int.ceil_eq_iff]
    have hc2 : (⌈(3:ℚ)/4⌉ : ℤ) = 1 := by norm_num [Int.ceil_eq_iff]
    norm_num [hc, hc2, Int.ceil_one, build, buildforstructure, remergedata, indexrows,
      indexrowsfrom, indexcells,
      validatecolumnsizes, setrowspans, tablegetspanranges, Table.allrows, spanrangesstep,
      tablecanspan, tableinspan, setrowsizes, maprows, setcolumnsizes, maprowsM,
      setcellcolumnsize, setrowexpansion, buildexpandindex, rowexpansionsteps,
      getexpansionsteps, getpaddedtextheight, dictsetexp, expandunspannedcells,
      expandspannedcells, checkexpansion, setpositions, posrows, posrow, decypos,
      getcolumnwidth, padrows, padloop, blankrow, iswholemultiple, Cell.setvalue,
      setbreak, findbreakindex, rowminy, settablepages, c6table, c6measure,
      List.foldlM, List.mapM, List.mapM.loop, Except.pure, Except.bind,
      bind, pure, Except.map, gettableheight, rowsheight, rowcontentheight, Row.isnull,
      List.min?]

/-- Witness for C6: the single-row table at nominal height 1/4 with measured
text height 3/5 expands to cell height 3/4. -/
theorem setrowexpansion_ratio_formula_witness :
    (setrowexpansion c6measure c6postable).map
        (fun t1 => t1.rows.map (fun rr => rr.cells.map (·.height))) = Except.ok [[3/4]] := by
  have hc3 : (⌈(53:ℚ)/20⌉ : ℤ) = 3 := by norm_num [Int.ceil_eq_iff]
  have hsteps : rowexpansionsteps c6measure c6postable c6row = 2 := by
    norm_num [rowexpansionsteps, getexpansionsteps, getpaddedtextheight, c6row, c6measure,
      c6postable, List.max?, hc3, Int.ceil_one]
  have h := (setrowexpansion_ratio_formula c6measure c6postable c6row rfl rfl rfl
      (by norm_num [c6row]) ?hb).2.1
  case hb =>
    intro c hc
    rw [hsteps]
    simp only [c6row, List.mem_singleton] at hc
    rw [hc]
    norm_num [c6postable]
  rw [h, hsteps]
  norm_num [c6row, c6postable, Except.map]

/-- Counterexample for C4 as stated: with a value-less kept half the rejoined
cell's value stays `None` instead of becoming the concatenation of the two
texts. -/
theorem remergedata_concat_cex :
    (((remergedata c4cextable).rows.getD 0 default).cells.getD 0 default).value
        = Value.none ∧
    Value.none ≠ Value.str (textformat Value.none ++ "\n" ++ textformat (Value.str "Gamma")) := by
  constructor
  · decide
  · decide


/-!
## The column-span merge (claims C1 and C5)
-/

theorem getq_mid : ∀ (A : List Cell) (c : Cell) (B : List Cell) (n : ℕ), n = A.length →
    (A ++ c :: B).get? n = some c := by
  intro A
  induction A with
  | nil => intro c B n hn; subst hn; rfl
  | cons a A ih =>
    intro c B n hn
    subst hn
    exact ih c B A.length rfl

theorem getq_mid2 : ∀ (A₁ : List Cell) (o : Cell) (A₂ B : List Cell) (c : Cell) (n : ℕ),
    n = A₁.length + 1 + A₂.length →
    (A₁ ++ o :: (A₂ ++ c :: B)).get? n = some c := by
  intro A₁
  induction A₁ with
  | nil =>
    intro o A₂ B c n hn
    subst hn
    rw [show ([] : List Cell).length + 1 + A₂.length = A₂.length + 1 from by simp only [List.length_cons, List.length_nil]; omega]
    exact getq_mid A₂ c B A₂.length rfl
  | cons a A ih =>
    intro o A₂ B c n hn
    subst hn
    rw [show (a :: A).length + 1 + A₂.length = (A.length + 1 + A₂.length) + 1 from by simp only [List.length_cons, List.length_nil]; omega]
    exact ih o A₂ B c _ rfl

theorem set_mid : ∀ (A : List Cell) (c c' : Cell) (B : List Cell) (n : ℕ), n = A.length →
    (A ++ c :: B).set n c' = A ++ c' :: B := by
  intro A
  induction A with
  | nil => intro c c' B n hn; subst hn; rfl
  | cons a A ih =>
    intro c c' B n hn
    subst hn
    show a :: (A ++ c :: B).set A.length c' = a :: (A ++ c' :: B)
    rw [ih c c' B A.length rfl]

theorem set_mid2 : ∀ (A₁ : List Cell) (o : Cell) (A₂ B : List Cell) (c c' : Cell) (n : ℕ),
    n = A₁.length + 1 + A₂.length →
    (A₁ ++ o :: (A₂ ++ c :: B)).set n c' = A₁ ++ o :: (A₂ ++ c' :: B) := by
  intro A₁
  induction A₁ with
  | nil =>
    intro o A₂ B c c' n hn
    subst hn
    rw [show ([] : List Cell).length + 1 + A₂.length = A₂.length + 1 from by simp only [List.length_cons, List.length_nil]; omega]
    show o :: (A₂ ++ c :: B).set A₂.length c' = o :: (A₂ ++ c' :: B)
    rw [set_mid A₂ c c' B A₂.length rfl]
  | cons a A ih =>
    intro o A₂ B c c' n hn
    subst hn
    rw [show (a :: A).length + 1 + A₂.length = (A.length + 1 + A₂.length) + 1 from by simp only [List.length_cons, List.length_nil]; omega]
    show a :: (A ++ o :: (A₂ ++ c :: B)).set (A.length + 1 + A₂.length) c' = a :: (A ++ o :: (A₂ ++ c' :: B))
    rw [ih o A₂ B c c' _ rfl]

theorem getD_mid (A : List Cell) (c : Cell) (B : List Cell) (n : ℕ) (hn : n = A.length) :
    (A ++ c :: B).getD n default = c := by
  rw [List.getD_eq_getElem?_getD, ← List.get?_eq_getElem?, getq_mid A c B n hn]
  rfl

theorem setspansloop_body (sr : List (ℕ × ℕ)) (i : ℕ) (main : Option ℕ) (cells : List Cell)
    (h : i < cells.length) :
    setspansloop sr i main cells
      = match rowcanspan (cells.get ⟨i, h⟩) sr with
        | Except.error e => Except.error e
        | Except.ok true => setspansloop sr (i + 1) (Option.some i) cells
        | Except.ok false =>
          if rowinspan (cells.get ⟨i, h⟩) sr then
            match main with
            | Option.some m =>
              setspansloop sr (i + 1) main
                ((cells.set m (mergevaluewith (cells.getD m default) (cells.get ⟨i, h⟩)).1).set i
                  { (mergevaluewith (cells.getD m default) (cells.get ⟨i, h⟩)).2 with null := true })
            | Option.none =>
              Except.error "AttributeError: NoneType has no attribute _mergevaluewith"
          else setspansloop sr (i + 1) main cells := by
  rw [setspansloop]
  rw [dif_pos h]

theorem setspansloop_done (sr : List (ℕ × ℕ)) (main : Option ℕ) (cells : List Cell) (n : ℕ)
    (hn : n = cells.length) :
    setspansloop sr n main cells = Except.ok cells := by
  rw [setspansloop]
  rw [dif_neg (by omega)]


theorem get_of_getq (cells : List Cell) (n : ℕ) (h : n < cells.length) (c : Cell)
    (hq : cells.get? n = some c) : cells.get ⟨n, h⟩ = c := by
  have h1 := List.get?_eq_get h
  rw [hq] at h1
  exact (Option.some.inj h1).symm

theorem setspansloop_skip (sr : List (ℕ × ℕ)) (main : Option ℕ) (A B : List Cell) (c : Cell)
    (n : ℕ) (hn : n = A.length)
    (hcan : rowcanspan c sr = Except.ok false) (hin : rowinspan c sr = false) :
    setspansloop sr n main (A ++ c :: B) = setspansloop sr (n + 1) main (A ++ c :: B) := by
  have hlt : n < (A ++ c :: B).length := by
    rw [List.length_append, List.length_cons]; omega
  have hg : (A ++ c :: B).get ⟨n, hlt⟩ = c := get_of_getq _ _ _ _ (getq_mid A c B n hn)
  rw [setspansloop_body sr n main _ hlt, hg, hcan]
  simp [hin]

theorem setspansloop_own (sr : List (ℕ × ℕ)) (main : Option ℕ) (A B : List Cell) (o : Cell)
    (n : ℕ) (hn : n = A.length)
    (hcan : rowcanspan o sr = Except.ok true) :
    setspansloop sr n main (A ++ o :: B)
      = setspansloop sr (n + 1) (Option.some n) (A ++ o :: B) := by
  have hlt : n < (A ++ o :: B).length := by
    rw [List.length_append, List.length_cons]; omega
  have hg : (A ++ o :: B).get ⟨n, hlt⟩ = o := get_of_getq _ _ _ _ (getq_mid A o B n hn)
  rw [setspansloop_body sr n main _ hlt, hg, hcan]

theorem setspansloop_absorb (sr : List (ℕ × ℕ)) (A₁ A₂ B : List Cell) (o c : Cell) (n m : ℕ)
    (hn : n = A₁.length + 1 + A₂.length) (hm : m = A₁.length)
    (hcan : rowcanspan c sr = Except.ok false) (hin : rowinspan c sr = true) :
    setspansloop sr n (Option.some m) (A₁ ++ o :: (A₂ ++ c :: B))
      = setspansloop sr (n + 1) (Option.some m)
          (A₁ ++ (mergevaluewith o c).1 :: (A₂ ++ { (mergevaluewith o c).2 with null := true } :: B)) := by
  have hlt : n < (A₁ ++ o :: (A₂ ++ c :: B)).length := by
    rw [List.length_append, List.length_cons, List.length_append, List.length_cons]; omega
  have hg : (A₁ ++ o :: (A₂ ++ c :: B)).get ⟨n, hlt⟩ = c :=
    get_of_getq _ _ _ _ (getq_mid2 A₁ o A₂ B c n hn)
  have hgd : (A₁ ++ o :: (A₂ ++ c :: B)).getD m default = o :=
    getD_mid A₁ o (A₂ ++ c :: B) m hm
  have hs1 := set_mid A₁ o ((mergevaluewith o c).1) (A₂ ++ c :: B) m hm
  have hs2 := set_mid2 A₁ ((mergevaluewith o c).1) A₂ B c
    ({ (mergevaluewith o c).2 with null := true }) n hn
  rw [setspansloop_body sr n (Option.some m) _ hlt, hg, hcan]
  simp only [hin, if_true, hgd, hs1, hs2]


theorem rowcanspan_one (c : Cell) (sr : List (ℕ × ℕ)) (h : c.columnspan = 1) :
    rowcanspan c sr = Except.ok false := by
  unfold rowcanspan
  rw [if_neg (by simp [h]), if_pos h]

theorem rowcanspan_own (c : Cell) (sr : List (ℕ × ℕ)) (h1 : 1 < c.columnspan)
    (seg : ℕ × ℕ) (hm : seg ∈ sr) (hs : seg.1 = c.column) :
    rowcanspan c sr = Except.ok true := by
  unfold rowcanspan
  rw [if_pos ⟨h1, by rw [List.any_eq_true]; exact ⟨seg, hm, by simp [hs]⟩⟩]

theorem rowinspan_false (c : Cell) (sr : List (ℕ × ℕ))
    (h : ∀ seg ∈ sr, ¬(seg.1 ≤ c.column ∧ c.column < seg.2)) :
    rowinspan c sr = false := by
  rw [← Bool.not_eq_true, rowinspan, List.any_eq_true]
  push_neg
  intro seg hseg
  simpa using h seg hseg

theorem rowinspan_true (c : Cell) (sr : List (ℕ × ℕ)) (seg : ℕ × ℕ) (hm : seg ∈ sr)
    (h1 : seg.1 ≤ c.column) (h2 : c.column < seg.2) :
    rowinspan c sr = true := by
  rw [rowinspan, List.any_eq_true]
  exact ⟨seg, hm, by simp [h1, h2]⟩

theorem setspansloop_absorbrun (sr : List (ℕ × ℕ)) :
    ∀ (ab A₁ A₂ B : List Cell) (o : Cell) (n : ℕ), n = A₁.length + 1 + A₂.length →
      (∀ c ∈ ab, rowcanspan c sr = Except.ok false) →
      (∀ c ∈ ab, rowinspan c sr = true) →
      setspansloop sr n (Option.some A₁.length) (A₁ ++ o :: (A₂ ++ (ab ++ B)))
        = setspansloop sr (n + ab.length) (Option.some A₁.length)
            (A₁ ++ List.foldl absorbinto o ab :: (A₂ ++ (ab.map killcell ++ B))) := by
  intro ab
  induction ab with
  | nil => intro A₁ A₂ B o n hn _ _; rfl
  | cons c ab ih =>
    intro A₁ A₂ B o n hn hcan hin
    rw [show (A₁ ++ o :: (A₂ ++ (c :: ab ++ B))) = (A₁ ++ o :: (A₂ ++ c :: (ab ++ B))) from by
      simp]
    rw [setspansloop_absorb sr A₁ A₂ (ab ++ B) o c n A₁.length hn rfl
      (hcan c (by simp)) (hin c (by simp))]
    have hih := ih A₁ (A₂ ++ [{ (mergevaluewith o c).2 with null := true }]) B
      ((mergevaluewith o c).1) (n + 1)
      (by rw [hn, List.length_append, List.length_singleton]; omega)
      (fun c2 hc2 => hcan c2 (by simp [hc2])) (fun c2 hc2 => hin c2 (by simp [hc2]))
    rw [show (A₁ ++ (mergevaluewith o c).1 :: (A₂ ++ { (mergevaluewith o c).2 with null := true } :: (ab ++ B)))
        = (A₁ ++ (mergevaluewith o c).1 :: ((A₂ ++ [{ (mergevaluewith o c).2 with null := true }]) ++ (ab ++ B))) from by
      simp]
    rw [hih]
    rw [show n + 1 + ab.length = n + (c :: ab).length from by simp [List.length_cons]; omega]
    rw [show ((A₂ ++ [{ (mergevaluewith o c).2 with null := true }]) ++ (ab.map killcell ++ B))
        = (A₂ ++ ((c :: ab).map killcell ++ B)) from by
      simp [killcell, Cell.setvalue, mergevaluewith]]
    rfl


theorem buildcellsfrom_length (xs : List Cell) : ∀ i, (buildcellsfrom i xs).length = xs.length := by
  induction xs with
  | nil => intro i; rfl
  | cons x xs ih =>
    intro i
    show (buildcellsfrom (i + 1) xs).length + 1 = xs.length + 1
    rw [ih (i + 1)]

theorem buildcellsfrom_mem : ∀ (xs : List Cell) (i : ℕ) (x : Cell), x ∈ buildcellsfrom i xs →
    ∃ c0 ∈ xs, ∃ k, k < xs.length ∧ x = { c0 with column := i + k } := by
  intro xs
  induction xs with
  | nil => intro i x hx; simp [buildcellsfrom] at hx
  | cons c cs ih =>
    intro i x hx
    rw [show buildcellsfrom i (c :: cs) = { c with column := i } :: buildcellsfrom (i + 1) cs
      from rfl, List.mem_cons] at hx
    rcases hx with hx | hx
    · exact ⟨c, by simp, 0, by simp, by simpa using hx⟩
    · obtain ⟨c0, hc0, k, hk, hx⟩ := ih (i + 1) x hx
      exact ⟨c0, by simp [hc0], k + 1, by simp; omega, by rw [hx]; congr 1; omega⟩

theorem getspanranges_cons (c : Cell) (cs : List Cell) :
    getspanranges (c :: cs)
      = (if 1 < c.columnspan then [(c.column, c.column + c.columnspan)] else [])
        ++ getspanranges cs := by
  unfold getspanranges
  by_cases h : 1 < c.columnspan
  · rw [List.filter_cons_of_pos (by simpa using h), List.map_cons, if_pos h]
    rfl
  · rw [List.filter_cons_of_neg (by simpa using h), if_neg h]
    rfl

theorem getspanranges_append (xs ys : List Cell) :
    getspanranges (xs ++ ys) = getspanranges xs ++ getspanranges ys := by
  unfold getspanranges
  rw [List.filter_append, List.map_append]

theorem getspanranges_allone : ∀ (xs : List Cell), (∀ c ∈ xs, c.columnspan = 1) → ∀ i,
    getspanranges (buildcellsfrom i xs) = [] := by
  intro xs
  induction xs with
  | nil => intro _ i; rfl
  | cons x xs ih =>
    intro h i
    rw [show buildcellsfrom i (x :: xs) = { x with column := i } :: buildcellsfrom (i + 1) xs
      from rfl, getspanranges_cons]
    rw [if_neg (by simp [h x (by simp)]), ih (fun c hc => h c (by simp [hc])) (i + 1)]
    rfl

theorem getspanranges_flatinfrom : ∀ (bs : List RowBlock) (off : ℕ),
    (∀ b ∈ bs, blockok b = true) →
    getspanranges (flatinfrom off bs) = spansegs off bs := by
  intro bs
  induction bs with
  | nil => intro off _; rfl
  | cons b rest ih =>
    intro off hok
    have hokb : blockok b = true := hok b (by simp)
    have hokr : ∀ b2 ∈ rest, blockok b2 = true := fun b2 hb2 => hok b2 (by simp [hb2])
    show getspanranges (buildcellsfrom off (rawcells b) ++ flatinfrom (off + blocklen b) rest)
      = spansegs off (b :: rest)
    rw [getspanranges_append, ih (off + blocklen b) hokr]
    cases b with
    | plain c =>
      have hspan : c.columnspan = 1 := by simpa [blockok] using hokb
      rw [show rawcells (RowBlock.plain c) = [c] from rfl]
      rw [show buildcellsfrom off [c] = [{ c with column := off }] from rfl]
      rw [show getspanranges [{ c with column := off }] = [] from by
        rw [getspanranges_cons, if_neg (by simp [hspan])]; rfl]
      rfl
    | span o ab =>
      obtain ⟨hos, habs⟩ : o.columnspan = ab.length + 1 ∧ ∀ c ∈ ab, c.columnspan = 1 := by
        simpa [blockok] using hokb
      rw [show rawcells (RowBlock.span o ab) = o :: ab from rfl]
      rw [show buildcellsfrom off (o :: ab)
        = { o with column := off } :: buildcellsfrom (off + 1) ab from rfl]
      rw [getspanranges_cons, getspanranges_allone ab habs (off + 1)]
      show ((if 1 < o.columnspan then [(off, off + o.columnspan)] else []) ++ []) ++ spansegs (off + blocklen (RowBlock.span o ab)) rest
        = spansegs off (RowBlock.span o ab :: rest)
      rw [List.append_nil]
      rw [show spansegs off (RowBlock.span o ab :: rest)
        = (if ab.isEmpty then [] else [(off, off + (ab.length + 1))])
            ++ spansegs (off + (ab.length + 1)) rest from rfl]
      rw [show blocklen (RowBlock.span o ab) = ab.length + 1 from by
        simp [blocklen, rawcells]]
      congr 1
      rw [hos]
      cases ab with
      | nil => rfl
      | cons a ab2 => simp [List.isEmpty]

theorem spansegs_bounds : ∀ (bs : List RowBlock) (off : ℕ) (seg : ℕ × ℕ),
    seg ∈ spansegs off bs →
    off ≤ seg.1 ∧ seg.1 < seg.2 ∧ seg.2 ≤ off + blockslen bs := by
  intro bs
  induction bs with
  | nil => intro off seg h; simp [spansegs] at h
  | cons b rest ih =>
    intro off seg h
    have hbl : 1 ≤ blocklen b := by
      cases b <;> simp [blocklen, rawcells]
    cases b with
    | plain c =>
      have h2 := ih (off + 1) seg (by simpa [spansegs] using h)
      refine ⟨by omega, h2.2.1, ?_⟩
      have h3 := h2.2.2
      rw [show blockslen (RowBlock.plain c :: rest) = 1 + blockslen rest from by
        simp [blockslen, blocklen, rawcells]]
      omega
    | span o ab =>
      rw [show spansegs off (RowBlock.span o ab :: rest)
        = (if ab.isEmpty then [] else [(off, off + (ab.length + 1))])
            ++ spansegs (off + (ab.length + 1)) rest from rfl, List.mem_append] at h
      have hlen : blockslen (RowBlock.span o ab :: rest) = (ab.length + 1) + blockslen rest := by
        simp [blockslen, blocklen, rawcells]
      rcases h with h | h
      · by_cases he : ab.isEmpty
        · simp [he] at h
        · rw [Bool.not_eq_true] at he
          rw [he, if_neg (by simp), List.mem_singleton] at h
          subst h
          refine ⟨le_refl _, by omega, by rw [hlen]; omega⟩
      · have h2 := ih (off + (ab.length + 1)) seg h
        refine ⟨by omega, h2.2.1, by rw [hlen]; omega⟩


theorem setspansloop_blocks (sr : List (ℕ × ℕ)) :
    ∀ (bs : List RowBlock) (done : List Cell) (main : Option ℕ),
      (∀ b ∈ bs, blockok b = true) →
      (∀ seg ∈ sr, seg.2 ≤ done.length ∨ seg ∈ spansegs done.length bs) →
      (∀ seg ∈ spansegs done.length bs, seg ∈ sr) →
      setspansloop sr done.length main (done ++ flatinfrom done.length bs)
        = Except.ok (done ++ flatoutfrom done.length bs) := by
  intro bs
  induction bs with
  | nil =>
    intro done main _ _ _
    show setspansloop sr done.length main (done ++ []) = Except.ok (done ++ [])
    rw [List.append_nil]
    exact setspansloop_done sr main done done.length rfl
  | cons b rest ih =>
    intro done main hok hsr1 hsr2
    have hokb := hok b (by simp)
    have hokr : ∀ b2 ∈ rest, blockok b2 = true := fun b2 hb2 => hok b2 (by simp [hb2])
    cases b with
    | plain c =>
      have hspan : c.columnspan = 1 := by simpa [blockok] using hokb
      have hcan : rowcanspan { c with column := done.length } sr = Except.ok false :=
        rowcanspan_one _ sr (by show c.columnspan = 1; exact hspan)
      have hin : rowinspan { c with column := done.length } sr = false := by
        apply rowinspan_false
        intro seg hseg
        rcases hsr1 seg hseg with h | h
        · show ¬(seg.1 ≤ done.length ∧ done.length < seg.2)
          omega
        · have hb := spansegs_bounds rest (done.length + 1) seg (by simpa [spansegs] using h)
          show ¬(seg.1 ≤ done.length ∧ done.length < seg.2)
          omega
      rw [show flatinfrom done.length (RowBlock.plain c :: rest)
        = { c with column := done.length } :: flatinfrom (done.length + 1) rest from rfl]
      rw [setspansloop_skip sr main done (flatinfrom (done.length + 1) rest)
        { c with column := done.length } done.length rfl hcan hin]
      have hlen : (done ++ [{ c with column := done.length }]).length = done.length + 1 := by
        simp
      have hih := ih (done ++ [{ c with column := done.length }]) main hokr
        (by
          intro seg hseg
          rw [hlen]
          rcases hsr1 seg hseg with h | h
          · left; omega
          · right; simpa [spansegs] using h)
        (by
          intro seg hseg
          rw [hlen] at hseg
          apply hsr2 seg
          show seg ∈ spansegs done.length (RowBlock.plain c :: rest)
          simpa [spansegs] using hseg)
      rw [hlen] at hih
      simp only [List.append_assoc, List.singleton_append] at hih
      exact hih
    | span o ab =>
      obtain ⟨hos, habs⟩ : o.columnspan = ab.length + 1 ∧ ∀ c2 ∈ ab, c2.columnspan = 1 := by
        simpa [blockok] using hokb
      cases ab with
      | nil =>
        have hspan : o.columnspan = 1 := by simpa using hos
        have hcan : rowcanspan { o with column := done.length } sr = Except.ok false :=
          rowcanspan_one _ sr (by show o.columnspan = 1; exact hspan)
        have hin : rowinspan { o with column := done.length } sr = false := by
          apply rowinspan_false
          intro seg hseg
          rcases hsr1 seg hseg with h | h
          · show ¬(seg.1 ≤ done.length ∧ done.length < seg.2)
            omega
          · have hb := spansegs_bounds rest (done.length + 1) seg (by simpa [spansegs] using h)
            show ¬(seg.1 ≤ done.length ∧ done.length < seg.2)
            omega
        rw [show flatinfrom done.length (RowBlock.span o [] :: rest)
          = { o with column := done.length } :: flatinfrom (done.length + 1) rest from rfl]
        rw [setspansloop_skip sr main done (flatinfrom (done.length + 1) rest)
          { o with column := done.length } done.length rfl hcan hin]
        have hlen : (done ++ [{ o with column := done.length }]).length = done.length + 1 := by
          simp
        have hih := ih (done ++ [{ o with column := done.length }]) main hokr
          (by
            intro seg hseg
            rw [hlen]
            rcases hsr1 seg hseg with h | h
            · left; omega
            · right; simpa [spansegs] using h)
          (by
            intro seg hseg
            rw [hlen] at hseg
            apply hsr2 seg
            show seg ∈ spansegs done.length (RowBlock.span o [] :: rest)
            simpa [spansegs] using hseg)
        rw [hlen] at hih
        simp only [List.append_assoc, List.singleton_append] at hih
        exact hih
      | cons a ab2 =>
        have hseg0 : (done.length, done.length + ((a :: ab2).length + 1)) ∈ sr := by
          apply hsr2
          show (done.length, done.length + ((a :: ab2).length + 1))
            ∈ spansegs done.length (RowBlock.span o (a :: ab2) :: rest)
          rw [show spansegs done.length (RowBlock.span o (a :: ab2) :: rest)
            = (if (a :: ab2).isEmpty then [] else
                [(done.length, done.length + ((a :: ab2).length + 1))])
              ++ spansegs (done.length + ((a :: ab2).length + 1)) rest from rfl]
          simp [List.isEmpty]
        have hcano : rowcanspan { o with column := done.length } sr = Except.ok true :=
          rowcanspan_own _ sr
            (by show 1 < o.columnspan; rw [hos]; simp only [List.length_cons]; omega)
            (done.length, done.length + ((a :: ab2).length + 1)) hseg0 rfl
        have hcanab : ∀ c2 ∈ buildcellsfrom (done.length + 1) (a :: ab2),
            rowcanspan c2 sr = Except.ok false := by
          intro c2 hc2
          obtain ⟨c0, hc0, k, hk, hc2e⟩ := buildcellsfrom_mem _ _ _ hc2
          subst hc2e
          exact rowcanspan_one _ sr (habs c0 hc0)
        have hinab : ∀ c2 ∈ buildcellsfrom (done.length + 1) (a :: ab2),
            rowinspan c2 sr = true := by
          intro c2 hc2
          obtain ⟨c0, hc0, k, hk, hc2e⟩ := buildcellsfrom_mem _ _ _ hc2
          subst hc2e
          apply rowinspan_true _ sr _ hseg0
          · show done.length ≤ done.length + 1 + k
            omega
          · show done.length + 1 + k < done.length + ((a :: ab2).length + 1)
            simp only [List.length_cons] at hk ⊢
            omega
        have hbuiltlen : (buildcellsfrom (done.length + 1) (a :: ab2)).length
            = (a :: ab2).length := buildcellsfrom_length _ _
        rw [show flatinfrom done.length (RowBlock.span o (a :: ab2) :: rest)
          = { o with column := done.length }
            :: (buildcellsfrom (done.length + 1) (a :: ab2)
                ++ flatinfrom (done.length + ((a :: ab2).length + 1)) rest) from rfl]
        rw [setspansloop_own sr main done _ { o with column := done.length } done.length rfl hcano]
        have hrun := setspansloop_absorbrun sr (buildcellsfrom (done.length + 1) (a :: ab2))
          done [] (flatinfrom (done.length + ((a :: ab2).length + 1)) rest)
          { o with column := done.length } (done.length + 1) rfl hcanab hinab
        simp only [List.nil_append] at hrun
        rw [hrun]
        have hD2len : (done ++ List.foldl absorbinto { o with column := done.length }
              (buildcellsfrom (done.length + 1) (a :: ab2))
            :: (buildcellsfrom (done.length + 1) (a :: ab2)).map killcell).length
            = done.length + ((a :: ab2).length + 1) := by
          simp [hbuiltlen]
          try omega
        have hih := ih (done ++ List.foldl absorbinto { o with column := done.length }
              (buildcellsfrom (done.length + 1) (a :: ab2))
            :: (buildcellsfrom (done.length + 1) (a :: ab2)).map killcell)
          (Option.some done.length) hokr
          (by
            intro seg hseg
            rw [hD2len]
            rcases hsr1 seg hseg with h | h
            · left; omega
            · rw [show spansegs done.length (RowBlock.span o (a :: ab2) :: rest)
                = (if (a :: ab2).isEmpty then [] else
                    [(done.length, done.length + ((a :: ab2).length + 1))])
                  ++ spansegs (done.length + ((a :: ab2).length + 1)) rest from rfl,
                List.mem_append] at h
              rcases h with h | h
              · left
                rw [show (a :: ab2).isEmpty = false from rfl, if_neg (by simp),
                  List.mem_singleton] at h
                subst h
                omega
              · right
                exact h)
          (by
            intro seg hseg
            rw [hD2len] at hseg
            apply hsr2 seg
            rw [show spansegs done.length (RowBlock.span o (a :: ab2) :: rest)
              = (if (a :: ab2).isEmpty then [] else
                  [(done.length, done.length + ((a :: ab2).length + 1))])
                ++ spansegs (done.length + ((a :: ab2).length + 1)) rest from rfl,
              List.mem_append]
            right
            exact hseg)
        rw [hD2len] at hih
        simp only [List.append_assoc, List.cons_append] at hih ⊢
        rw [show done.length + 1 + (buildcellsfrom (done.length + 1) (a :: ab2)).length
          = done.length + ((a :: ab2).length + 1) from by rw [hbuiltlen]; omega]
        exact hih


theorem buildcellsfrom_append (xs ys : List Cell) : ∀ i,
    buildcellsfrom i (xs ++ ys) = buildcellsfrom i xs ++ buildcellsfrom (i + xs.length) ys := by
  induction xs with
  | nil => intro i; rfl
  | cons x xs ih =>
    intro i
    show { x with column := i } :: buildcellsfrom (i + 1) (xs ++ ys)
      = { x with column := i } :: (buildcellsfrom (i + 1) xs
          ++ buildcellsfrom (i + (xs.length + 1)) ys)
    rw [ih (i + 1), show i + (xs.length + 1) = i + 1 + xs.length from by omega]

theorem flatinfrom_eq_buildcells : ∀ (bs : List RowBlock) (off : ℕ),
    buildcellsfrom off (flatraw bs) = flatinfrom off bs := by
  intro bs
  induction bs with
  | nil => intro off; rfl
  | cons b rest ih =>
    intro off
    show buildcellsfrom off (rawcells b ++ flatraw rest) = _
    rw [buildcellsfrom_append, ih (off + (rawcells b).length)]
    rfl

theorem setcolumnspans_blocks (bs : List RowBlock) (hok : ∀ b ∈ bs, blockok b = true) :
    setcolumnspans (flatinfrom 0 bs) = Except.ok (flatoutfrom 0 bs) := by
  unfold setcolumnspans
  rw [getspanranges_flatinfrom bs 0 hok]
  have h := setspansloop_blocks (spansegs 0 bs) bs [] Option.none hok
    (fun seg hs => Or.inr hs) (fun seg hs => hs)
  simpa using h

/-- C1: in the column-span merge of `_Row._setcolumnspans`, every cell lying
inside a span owner's range without being the owner is absorbed into the
owner — numeric values are summed, any other combination is concatenated as
text with the owner's value first — and the absorbed cell's value is cleared
to `None` with the cell marked null.  For a row decomposed into well-formed
span blocks, the merge produces exactly the block-wise merged cells; scenario
A (numeric 3 and 4 under a 2-column span) yields owner value 7 with the
second cell cleared and nulled. -/
theorem setcolumnspans_merges_into_owner (bs : List RowBlock)
    (hok : ∀ b ∈ bs, blockok b = true) :
    setcolumnspans (buildcells (flatraw bs)) = Except.ok (flatoutfrom 0 bs) ∧
    (∀ qa qb : ℚ, mergevalue (Value.num qa) (Value.num qb) = Value.num (qa + qb)) ∧
    (∀ a b : Value, ¬(a.isnumeric = true ∧ b.isnumeric = true) →
      mergevalue a b = Value.str (a.pystr ++ b.pystr)) ∧
    (∀ c : Cell, c.null = false → killcell c = { c with value := Value.none, null := true }) ∧
    (setcolumnspans (buildcells c1cells)).map (List.map (fun c => (c.value, c.null)))
      = Except.ok [(Value.num 7, false), (Value.none, true)] := by
  have hmain : ∀ (bs2 : List RowBlock), (∀ b ∈ bs2, blockok b = true) →
      setcolumnspans (buildcells (flatraw bs2)) = Except.ok (flatoutfrom 0 bs2) := by
    intro bs2 hok2
    rw [show buildcells (flatraw bs2) = buildcellsfrom 0 (flatraw bs2) from rfl,
      flatinfrom_eq_buildcells bs2 0]
    exact setcolumnspans_blocks bs2 hok2
  refine ⟨hmain bs hok, ?_, ?_, ?_, ?_⟩
  · intro qa qb
    rfl
  · intro a b hn
    unfold mergevalue
    rw [if_neg (by simpa using hn)]
  · intro c hc
    unfold killcell Cell.setvalue
    rw [if_neg (by simp [hc])]
  · have h1 := hmain c1blocks (by
      intro b hb
      simp only [c1blocks, List.mem_singleton] at hb
      subst hb
      rfl)
    rw [show flatraw c1blocks = c1cells from rfl] at h1
    rw [h1]
    show Except.ok ((flatoutfrom 0 c1blocks).map (fun c => (c.value, c.null))) = _
    norm_num [flatoutfrom, c1blocks, blockmerge, absorbinto, mergevaluewith, Cell.setvalue,
      mergevalue, Value.isnumeric, killcell, buildcellsfrom, blocklen, rawcells]


theorem killcell_formula (c : Cell) (h : c.null = false ∨ c.value = Value.none) :
    killcell c = { c with value := Value.none, null := true } := by
  unfold killcell Cell.setvalue
  rcases h with h | h
  · rw [if_neg (by simp [h])]
  · by_cases hn : c.null
    · rw [if_pos hn]
      cases c
      simp_all
    · rw [if_neg hn]

theorem foldl_absorbinto_value : ∀ (xs : List Cell) (o : Cell), o.null = false →
    List.foldl absorbinto o xs = { o with value := mergefold o.value (xs.map (·.value)) } := by
  intro xs
  induction xs with
  | nil => intro o _; rfl
  | cons x xs ih =>
    intro o ho
    show List.foldl absorbinto (absorbinto o x) xs = _
    rw [show absorbinto o x = { o with value := mergevalue o.value x.value } from by
      unfold absorbinto mergevaluewith Cell.setvalue
      rw [if_neg (by simp [ho])]]
    rw [ih _ (by simp [ho])]
    rfl

theorem buildcellsfrom_map_value (xs : List Cell) : ∀ i,
    (buildcellsfrom i xs).map (fun c => c.value) = xs.map (fun c => c.value) := by
  induction xs with
  | nil => intro i; rfl
  | cons x xs ih =>
    intro i
    show x.value :: (buildcellsfrom (i + 1) xs).map (fun c => c.value) = _
    rw [ih (i + 1)]
    rfl

theorem buildcellsfrom_killcell (xs : List Cell)
    (h : ∀ c ∈ xs, c.null = false ∨ c.value = Value.none) : ∀ i,
    (buildcellsfrom i xs).map killcell
      = buildcellsfrom i (xs.map (fun c => { c with value := Value.none, null := true })) := by
  induction xs with
  | nil => intro i; rfl
  | cons x xs ih =>
    intro i
    show killcell { x with column := i } :: (buildcellsfrom (i + 1) xs).map killcell = _
    rw [ih (fun c hc => h c (by simp [hc])) (i + 1)]
    rw [show killcell { x with column := i }
      = { x with value := Value.none, null := true, column := i } from by
        rw [killcell_formula _ (by
          rcases h x (by simp) with hx | hx
          · left; simpa using hx
          · right; simpa using hx)]]
    rfl

theorem mergedblock_ok (b : RowBlock) (h : blockok b = true) :
    blockok (mergedblock b) = true := by
  cases b with
  | plain c => exact h
  | span o ab =>
    simp only [blockok, mergedblock] at h ⊢
    simpa using h

theorem mergedblock_valsok (b : RowBlock) (h : blockvalsok b = true) :
    blockvalsok (mergedblock b) = true := by
  cases b with
  | plain c => rfl
  | span o ab =>
    have h2 := (Bool.and_eq_true _ _).mp h
    simp only [mergedblock, blockvalsok]
    rw [Bool.and_eq_true]
    constructor
    · simpa using h2.1
    · rw [List.all_eq_true]
      intro c hc
      simp only [List.mem_map] at hc
      obtain ⟨c0, _, hc0⟩ := hc
      subst hc0
      simp

theorem blockvals_span (o : Cell) (ab : List Cell)
    (hvb : blockvalsok (RowBlock.span o ab) = true) :
    o.null = false ∧ ∀ c ∈ ab, c.null = false ∨ c.value = Value.none := by
  have h2 : (!o.null && ab.all (fun c => !c.null || c.value == Value.none)) = true := hvb
  rw [Bool.and_eq_true, List.all_eq_true] at h2
  refine ⟨by simpa using h2.1, ?_⟩
  intro c hc
  have h3 := h2.2 c hc
  rcases (Bool.or_eq_true _ _).mp h3 with h4 | h4
  · left; simpa using h4
  · right; simpa using h4

theorem blocklen_mergedblock (b : RowBlock) : blocklen (mergedblock b) = blocklen b := by
  cases b <;> simp [mergedblock, blocklen, rawcells]

theorem blockmerge_eq_input (b : RowBlock) (hv : blockvalsok b = true) (off : ℕ) :
    blockmerge off b = buildcellsfrom off (rawcells (mergedblock b)) := by
  cases b with
  | plain c => rfl
  | span o ab =>
    obtain ⟨hnull, habs⟩ := blockvals_span o ab hv
    show List.foldl absorbinto { o with column := off } (buildcellsfrom (off + 1) ab)
        :: (buildcellsfrom (off + 1) ab).map killcell
      = buildcellsfrom off
          ({ o with value := mergefold o.value (ab.map (·.value)) }
            :: ab.map (fun c => { c with value := Value.none, null := true }))
    rw [foldl_absorbinto_value _ _ (by simpa using hnull)]
    rw [buildcellsfrom_map_value]
    rw [buildcellsfrom_killcell ab habs (off + 1)]
    rfl

theorem flatoutfrom_eq_flatinfrom : ∀ (bs : List RowBlock),
    (∀ b ∈ bs, blockvalsok b = true) → ∀ off,
    flatoutfrom off bs = flatinfrom off (bs.map mergedblock) := by
  intro bs
  induction bs with
  | nil => intro _ off; rfl
  | cons b rest ih =>
    intro hv off
    have hvb := hv b (by simp)
    have hvr : ∀ b2 ∈ rest, blockvalsok b2 = true := fun b2 hb2 => hv b2 (by simp [hb2])
    show blockmerge off b ++ flatoutfrom (off + blocklen b) rest
      = buildcellsfrom off (rawcells (mergedblock b))
        ++ flatinfrom (off + blocklen (mergedblock b)) (rest.map mergedblock)
    rw [blocklen_mergedblock, ← ih hvr (off + blocklen b), blockmerge_eq_input b hvb off]


theorem mergevalue_none (v : Value) : mergevalue v Value.none = Value.str v.pystr := by
  unfold mergevalue
  rw [if_neg (by simp [Value.isnumeric])]
  rw [show Value.pystr Value.none = "" from rfl, String.append_empty]

theorem mergefold_nones : ∀ (n : ℕ) (v : Value),
    mergefold v (List.replicate (n + 1) Value.none) = Value.str v.pystr := by
  intro n
  induction n with
  | zero =>
    intro v
    show mergefold (mergevalue v Value.none) [] = Value.str v.pystr
    rw [show mergefold (mergevalue v Value.none) [] = mergevalue v Value.none from rfl,
      mergevalue_none v]
  | succ n ih =>
    intro v
    show mergefold (mergevalue v Value.none) (List.replicate (n + 1) Value.none) = _
    rw [mergevalue_none v, ih (Value.str v.pystr)]
    rfl

theorem killedform_map_value (ab : List Cell) :
    (ab.map (fun c => { c with value := Value.none, null := true })).map (fun c => c.value)
      = List.replicate ab.length Value.none := by
  induction ab with
  | nil => rfl
  | cons a ab ih =>
    simp only [List.map_cons, List.length_cons, List.replicate_succ]
    rw [ih]

theorem killedform_idem (ab : List Cell) :
    (ab.map (fun c => { c with value := Value.none, null := true })).map
        (fun c => { c with value := Value.none, null := true })
      = ab.map (fun c => { c with value := Value.none, null := true }) := by
  induction ab with
  | nil => rfl
  | cons a ab ih =>
    simp only [List.map_cons]
    rw [ih]

/-- C5 (amended): re-running the column-span merge on an already-merged row
is NOT always a no-op.  The second run keeps every non-owner value, but each
span owner that absorbed at least one cell re-merges the cleared `None`
values of its nulled span cells: its value `v` is replaced by the Python
string rendering `str(v)`.  String owner values keep their content; numeric
owner values change type from number to string. -/
theorem setcolumnspans_second_run (bs : List RowBlock)
    (hok : ∀ b ∈ bs, blockok b = true) (hv : ∀ b ∈ bs, blockvalsok b = true) :
    (setcolumnspans (buildcells (flatraw bs))).bind setcolumnspans
      = Except.ok (flatoutfrom 0 (bs.map mergedblock)) ∧
    (∀ (o : Cell) (ab : List Cell), ab ≠ [] →
      mergedblock (mergedblock (RowBlock.span o ab))
        = RowBlock.span
            { o with value := Value.str (mergefold o.value (ab.map (·.value))).pystr }
            (ab.map (fun c => { c with value := Value.none, null := true }))) ∧
    (∀ s : String, Value.pystr (Value.str s) = s) := by
  refine ⟨?_, ?_, fun s => rfl⟩
  · have h1 : setcolumnspans (buildcells (flatraw bs)) = Except.ok (flatoutfrom 0 bs) := by
      rw [show buildcells (flatraw bs) = buildcellsfrom 0 (flatraw bs) from rfl,
        flatinfrom_eq_buildcells]
      exact setcolumnspans_blocks bs hok
    rw [h1]
    show setcolumnspans (flatoutfrom 0 bs) = _
    rw [flatoutfrom_eq_flatinfrom bs hv 0]
    apply setcolumnspans_blocks
    intro b hb
    simp only [List.mem_map] at hb
    obtain ⟨b0, hb0, rfl⟩ := hb
    exact mergedblock_ok b0 (hok b0 hb0)
  · intro o ab hne
    obtain ⟨a, ab2, rfl⟩ := List.exists_cons_of_ne_nil hne
    simp only [mergedblock]
    congr 1
    · rw [killedform_map_value]
      rw [show (a :: ab2).length = ab2.length + 1 from rfl, mergefold_nones]
    · exact killedform_idem (a :: ab2)

/-- Counterexample for C5 as stated: merging scenario A's row twice changes
the owner value from the number 7 to a string (the rendering "7"), so the
merge is not idempotent on cell values. -/
theorem setcolumnspans_idempotence_cex :
    ∃ cs1 cs2 : List Cell,
      setcolumnspans (buildcells c1cells) = Except.ok cs1 ∧
      setcolumnspans cs1 = Except.ok cs2 ∧
      cs1.map (fun c => c.value) = [Value.num 7, Value.none] ∧
      (∃ s : String, cs2.map (fun c => c.value) = [Value.str s, Value.none]) ∧
      cs2.map (fun c => c.value) ≠ cs1.map (fun c => c.value) := by
  have hok : ∀ b ∈ c1blocks, blockok b = true := by
    intro b hb
    simp only [c1blocks, List.mem_singleton] at hb
    subst hb
    rfl
  have hv : ∀ b ∈ c1blocks, blockvalsok b = true := by
    intro b hb
    simp only [c1blocks, List.mem_singleton] at hb
    subst hb
    rfl
  have h1 : setcolumnspans (buildcells c1cells) = Except.ok (flatoutfrom 0 c1blocks) := by
    rw [show buildcells c1cells = buildcellsfrom 0 (flatraw c1blocks) from rfl,
      flatinfrom_eq_buildcells]
    exact setcolumnspans_blocks c1blocks hok
  have h2 : setcolumnspans (flatoutfrom 0 c1blocks)
      = Except.ok (flatoutfrom 0 (c1blocks.map mergedblock)) := by
    rw [flatoutfrom_eq_flatinfrom c1blocks hv 0]
    apply setcolumnspans_blocks
    intro b hb
    simp only [List.mem_map] at hb
    obtain ⟨b0, hb0, rfl⟩ := hb
    exact mergedblock_ok b0 (hok b0 hb0)
  have hm1 : (flatoutfrom 0 c1blocks).map (fun c => c.value) = [Value.num 7, Value.none] := by
    norm_num [flatoutfrom, c1blocks, blockmerge, absorbinto, mergevaluewith, Cell.setvalue,
      mergevalue, Value.isnumeric, killcell, buildcellsfrom, blocklen, rawcells]
  have hm2 : (flatoutfrom 0 (c1blocks.map mergedblock)).map (fun c => c.value)
      = [Value.str (Value.pystr (Value.num 7)), Value.none] := by
    norm_num [flatoutfrom, c1blocks, blockmerge, absorbinto, mergevaluewith, Cell.setvalue,
      mergevalue, Value.isnumeric, Value.pystr, killcell, buildcellsfrom, blocklen, rawcells,
      mergedblock, mergefold, String.append_empty]
  exact ⟨flatoutfrom 0 c1blocks, flatoutfrom 0 (c1blocks.map mergedblock), h1, h2, hm1,
    ⟨Value.pystr (Value.num 7), hm2⟩, by rw [hm1, hm2]; simp⟩


/-- Witness for C1: scenario A evaluated through the block theorem. -/
theorem setcolumnspans_merges_into_owner_witness :
    (∀ b ∈ c1blocks, blockok b = true) ∧
    (setcolumnspans (buildcells c1cells)).map (List.map (fun c => (c.value, c.null)))
      = Except.ok [(Value.num 7, false), (Value.none, true)] :=
  ⟨by
    intro b hb
    simp only [c1blocks, List.mem_singleton] at hb
    subst hb
    rfl,
  (setcolumnspans_merges_into_owner c1blocks (by
    intro b hb
    simp only [c1blocks, List.mem_singleton] at hb
    subst hb
    rfl)).2.2.2.2⟩

/-- Witness for C5 (amended) at scenario A: the double run resolves to the
re-merged block list. -/
theorem setcolumnspans_second_run_witness :
    (∀ b ∈ c1blocks, blockok b = true) ∧ (∀ b ∈ c1blocks, blockvalsok b = true) ∧
    (setcolumnspans (buildcells (flatraw c1blocks))).bind setcolumnspans
      = Except.ok (flatoutfrom 0 (c1blocks.map mergedblock)) :=
  ⟨by
    intro b hb
    simp only [c1blocks, List.mem_singleton] at hb
    subst hb
    rfl,
  by
    intro b hb
    simp only [c1blocks, List.mem_singleton] at hb
    subst hb
    rfl,
  (setcolumnspans_second_run c1blocks
    (by
      intro b hb
      simp only [c1blocks, List.mem_singleton] at hb
      subst hb
      rfl)
    (by
      intro b hb
      simp only [c1blocks, List.mem_singleton] at hb
      subst hb
      rfl)).1⟩



/-!
## The positioning pass (claim C2)
-/

theorem decypos_span_zero (lo : ℕ) (d : ℚ) : ∀ (y : List ℚ) (i : ℕ), decypos lo 0 d i y = y := by
  intro y
  induction y with
  | nil => intro i; rfl
  | cons v vs ih =>
    intro i
    show (if lo ≤ i ∧ i < lo + 0 then v - d else v) :: decypos lo 0 d (i + 1) vs = v :: vs
    rw [if_neg (by omega), ih (i + 1)]

theorem decypos_getD_out (lo span : ℕ) (d : ℚ) : ∀ (y : List ℚ) (i p : ℕ),
    (i + p < lo ∨ lo + span ≤ i + p) →
    (decypos lo span d i y).getD p 0 = y.getD p 0 := by
  intro y
  induction y with
  | nil => intro i p _; rfl
  | cons v vs ih =>
    intro i p hp
    cases p with
    | zero =>
      show (if lo ≤ i ∧ i < lo + span then v - d else v) = v
      rw [if_neg (by omega)]
    | succ p =>
      show (decypos lo span d (i + 1) vs).getD p 0 = vs.getD p 0
      exact ih (i + 1) p (by omega)

theorem decypos_merge (lo span : ℕ) (d : ℚ) : ∀ (y : List ℚ) (i : ℕ),
    decypos (lo + 1) span d i (decypos lo 1 d i y) = decypos lo (span + 1) d i y := by
  intro y
  induction y with
  | nil => intro i; rfl
  | cons v vs ih =>
    intro i
    show (if lo + 1 ≤ i ∧ i < lo + 1 + span then
            (if lo ≤ i ∧ i < lo + 1 then v - d else v) - d
          else (if lo ≤ i ∧ i < lo + 1 then v - d else v))
        :: decypos (lo + 1) span d (i + 1) (decypos lo 1 d (i + 1) vs)
      = (if lo ≤ i ∧ i < lo + (span + 1) then v - d else v) :: decypos lo (span + 1) d (i + 1) vs
    rw [ih (i + 1)]
    by_cases h1 : lo ≤ i ∧ i < lo + 1
    · rw [if_pos h1, if_neg (by omega), if_pos (by omega)]
    · rw [if_neg h1]
      by_cases h2 : lo + 1 ≤ i ∧ i < lo + 1 + span
      · rw [if_pos h2, if_pos (by omega)]
      · rw [if_neg h2, if_neg (by omega)]

theorem decypos_replicate (lo span : ℕ) (d Y : ℚ) : ∀ (k i : ℕ),
    lo ≤ i → i + k ≤ lo + span →
    decypos lo span d i (List.replicate k Y) = List.replicate k (Y - d) := by
  intro k
  induction k with
  | zero => intro i _ _; rfl
  | succ k ih =>
    intro i h1 h2
    show (if lo ≤ i ∧ i < lo + span then Y - d else Y) :: decypos lo span d (i + 1) (List.replicate k Y)
      = (Y - d) :: List.replicate k (Y - d)
    rw [if_pos (by omega), ih (i + 1) (by omega) (by omega)]

theorem getD_drop (W : List ℚ) : ∀ j, W.getD j 0 = (W.drop j).headD 0 := by
  induction W with
  | nil => intro j; cases j <;> rfl
  | cons w ws ih =>
    intro j
    cases j with
    | zero => rfl
    | succ j => exact ih j

theorem gridcells_length (h : ℚ) : ∀ (ws : List ℚ) (j : ℕ), (gridcells h j ws).length = ws.length := by
  intro ws
  induction ws with
  | nil => intro j; rfl
  | cons w ws ih =>
    intro j
    show (gridcells h (j + 1) ws).length + 1 = ws.length + 1
    rw [ih (j + 1)]

theorem drop_succ_of_drop (W : List ℚ) : ∀ (j : ℕ) (w : ℚ) (ws : List ℚ),
    W.drop j = w :: ws → W.drop (j + 1) = ws := by
  induction W with
  | nil =>
    intro j w ws hd
    rw [List.drop_nil] at hd
    exact absurd hd (by simp)
  | cons a W ih =>
    intro j w ws hd
    cases j with
    | zero =>
      show W.drop 0 = ws
      have h2 := List.cons.inj hd
      rw [List.drop_zero]
      exact h2.2
    | succ j =>
      show W.drop (j + 1) = ws
      exact ih j w ws hd

theorem posrow_grid (t : Table) (W : List ℚ) (hW : t.columnwidths = ColWidths.seq W)
    (h Y : ℚ) : ∀ (ws : List ℚ) (j : ℕ) (x : ℚ) (ypos : List ℚ),
    W.drop j = ws →
    (∀ k, k < ws.length → ypos.getD (j + k) 0 = Y) →
    posrow t ypos j x (gridcells h j ws)
      = (exprowcells h Y j x ws, decypos j ws.length h 0 ypos) := by
  intro ws
  induction ws with
  | nil =>
    intro j x ypos _ _
    show (([] : List Cell), ypos) = ([], decypos j 0 h 0 ypos)
    rw [decypos_span_zero]
  | cons w ws ih =>
    intro j x ypos hdrop hread
    show posrow t ypos j x ({ width := w, height := h, column := j } :: gridcells h (j + 1) ws) = _
    rw [show posrow t ypos j x ({ width := w, height := h, column := j } :: gridcells h (j + 1) ws)
      = (({ width := w, height := h, column := j, x := x, y := ypos.getD j 0 - h } : Cell)
          :: (posrow t (decypos j 1 h 0 ypos) (j + 1)
              (x + getcolumnwidth t { width := w, height := h, column := j, x := x, y := ypos.getD j 0 - h })
              (gridcells h (j + 1) ws)).1,
         (posrow t (decypos j 1 h 0 ypos) (j + 1)
              (x + getcolumnwidth t { width := w, height := h, column := j, x := x, y := ypos.getD j 0 - h })
              (gridcells h (j + 1) ws)).2) from rfl]
    have hw : getcolumnwidth t
        ({ width := w, height := h, column := j, x := x, y := ypos.getD j 0 - h } : Cell) = w := by
      unfold getcolumnwidth
      rw [hW]
      show W.getD j 0 = w
      rw [getD_drop, hdrop]
      rfl
    have hdrop2 : W.drop (j + 1) = ws := drop_succ_of_drop W j w ws hdrop
    have hread2 : ∀ k, k < ws.length → (decypos j 1 h 0 ypos).getD (j + 1 + k) 0 = Y := by
      intro k hk
      rw [decypos_getD_out j 1 h ypos 0 (j + 1 + k) (by omega)]
      rw [show j + 1 + k = j + (1 + k) from by omega]
      exact hread (1 + k) (by simp only [List.length_cons]; omega)
    rw [hw, ih (j + 1) (x + w) (decypos j 1 h 0 ypos) hdrop2 hread2]
    have hr0 : ypos.getD j 0 = Y := by
      have h0 := hread 0 (by simp only [List.length_cons]; omega)
      simpa using h0
    rw [hr0]
    show (_ :: exprowcells h Y (j + 1) (x + w) ws,
        decypos (j + 1) ws.length h 0 (decypos j 1 h 0 ypos)) = _
    rw [decypos_merge]
    rfl


theorem getD_replicate (Y : ℚ) : ∀ (n k : ℕ), k < n → (List.replicate n Y).getD k 0 = Y := by
  intro n
  induction n with
  | zero => intro k hk; omega
  | succ n ih =>
    intro k hk
    cases k with
    | zero => rfl
    | succ k => exact ih k (by omega)

theorem posrows_grid (t : Table) (W : List ℚ) (hW : t.columnwidths = ColWidths.seq W) :
    ∀ (hs : List ℚ) (Y : ℚ),
    posrows t (List.replicate W.length Y) (gridrows W hs)
      = (exprows W Y hs, List.replicate W.length (Y - hs.sum)) := by
  intro hs
  induction hs with
  | nil =>
    intro Y
    show (([] : List Row), List.replicate W.length Y) = ([], List.replicate W.length (Y - [].sum))
    rw [show ([] : List ℚ).sum = 0 from rfl, sub_zero]
  | cons h hs ih =>
    intro Y
    show (({ cells := (posrow t (List.replicate W.length Y) 0 0 (gridcells h 0 W)).1,
             index := Option.none } : Row)
        :: (posrows t (posrow t (List.replicate W.length Y) 0 0 (gridcells h 0 W)).2 (gridrows W hs)).1,
      (posrows t (posrow t (List.replicate W.length Y) 0 0 (gridcells h 0 W)).2 (gridrows W hs)).2) = _
    rw [posrow_grid t W hW h Y W 0 0 (List.replicate W.length Y) rfl
      (fun k hk => by simpa using getD_replicate Y W.length k (by omega))]
    rw [show decypos 0 W.length h 0 (List.replicate W.length Y)
      = List.replicate W.length (Y - h) from
        decypos_replicate 0 W.length h Y W.length 0 (by omega) (by omega)]
    rw [ih (Y - h)]
    rw [show Y - h - hs.sum = Y - (h :: hs).sum from by
      rw [List.sum_cons]; ring]
    rfl

theorem setpositions_grid (Wt H : ℚ) (W hs : List ℚ) :
    setpositions (gridtable Wt H W hs)
      = { gridtable Wt H W hs with rows := exprows W H hs } := by
  cases hs with
  | nil => rfl
  | cons h hs =>
    have hstep : setpositions (gridtable Wt H W (h :: hs))
        = { gridtable Wt H W (h :: hs) with
            rows := (posrows (gridtable Wt H W (h :: hs))
              (List.replicate (gridcells h 0 W).length H) (gridrows W (h :: hs))).1,
            overflow := (posrows (gridtable Wt H W (h :: hs))
              (posrows (gridtable Wt H W (h :: hs))
                (List.replicate (gridcells h 0 W).length H) (gridrows W (h :: hs))).2
              ((gridtable Wt H W (h :: hs)).overflow)).1 } := rfl
    rw [hstep, gridcells_length h W 0]
    rw [posrows_grid (gridtable Wt H W (h :: hs)) W rfl (h :: hs) H]
    rfl

theorem take_succ_sum : ∀ (l : List ℚ) (k : ℕ), k < l.length →
    (l.take (k + 1)).sum = (l.take k).sum + l.getD k 0 := by
  intro l
  induction l with
  | nil => intro k hk; simp at hk
  | cons a l ih =>
    intro k hk
    cases k with
    | zero =>
      show a + (0:ℚ) = 0 + a
      ring
    | succ k =>
      show a + (l.take (k + 1)).sum = a + (l.take k).sum + l.getD k 0
      rw [ih k (by simpa using hk)]
      ring

theorem exprowcells_getD (h ytop : ℚ) : ∀ (ws : List ℚ) (j0 j : ℕ) (x : ℚ), j < ws.length →
    (exprowcells h ytop j0 x ws).getD j default
      = { width := ws.getD j 0, height := h, column := j0 + j,
          x := x + (ws.take j).sum, y := ytop - h } := by
  intro ws
  induction ws with
  | nil => intro j0 j x hj; simp at hj
  | cons w ws ih =>
    intro j0 j x hj
    cases j with
    | zero =>
      show ({ width := w, height := h, column := j0, x := x, y := ytop - h } : Cell) = _
      rw [show ((w :: ws).take 0).sum = 0 from rfl, add_zero, Nat.add_zero]
      rfl
    | succ j =>
      show (exprowcells h ytop (j0 + 1) (x + w) ws).getD j default = _
      rw [ih (j0 + 1) j (x + w) (by simpa using hj)]
      rw [show ((w :: ws).take (j + 1)).sum = w + (ws.take j).sum from by
        rw [List.take_succ_cons, List.sum_cons]]
      rw [show j0 + 1 + j = j0 + (j + 1) from by omega]
      rw [show x + w + (ws.take j).sum = x + (w + (ws.take j).sum) from by ring]
      rfl

theorem exprows_getD (W : List ℚ) : ∀ (hs : List ℚ) (r : ℕ) (Y : ℚ), r < hs.length →
    (exprows W Y hs).getD r default
      = { cells := exprowcells (hs.getD r 0) (Y - (hs.take r).sum) 0 0 W } := by
  intro hs
  induction hs with
  | nil => intro r Y hr; simp at hr
  | cons h hs ih =>
    intro r Y hr
    cases r with
    | zero =>
      show ({ cells := exprowcells h Y 0 0 W, index := Option.none } : Row) = _
      rw [show (((h :: hs).take 0).sum : ℚ) = 0 from rfl, sub_zero]
      rfl
    | succ r =>
      show (exprows W (Y - h) hs).getD r default = _
      rw [ih r (Y - h) (by simpa using hr)]
      rw [show Y - h - (hs.take r).sum = Y - ((h :: hs).take (r + 1)).sum from by
        rw [List.take_succ_cons, List.sum_cons]; ring]
      rfl

theorem listsum_nonneg : ∀ (l : List ℚ), (∀ x ∈ l, 0 ≤ x) → 0 ≤ l.sum := by
  intro l
  induction l with
  | nil => intro _; simp
  | cons a l ih =>
    intro hl
    rw [List.sum_cons]
    have h1 := hl a (by simp)
    have h2 := ih (fun x hx => hl x (by simp [hx]))
    linarith

theorem take_sum_mono (l : List ℚ) (hl : ∀ x ∈ l, 0 ≤ x) : ∀ (j k : ℕ), j ≤ k →
    (l.take j).sum ≤ (l.take k).sum := by
  induction l with
  | nil => intro j k _; rw [List.take_nil, List.take_nil]
  | cons a l ih =>
    intro j k hjk
    cases j with
    | zero =>
      show (0:ℚ) ≤ ((a :: l).take k).sum
      apply listsum_nonneg
      intro x hx
      exact hl x (List.mem_of_mem_take hx)
    | succ j =>
      cases k with
      | zero => omega
      | succ k =>
        show a + (l.take j).sum ≤ a + (l.take k).sum
        have := ih (fun x hx => hl x (by simp [hx])) j k (by omega)
        linarith

theorem prefixcover : ∀ (l : List ℚ), (∀ x ∈ l, 0 ≤ x) → ∀ (v : ℚ), 0 ≤ v → v ≤ l.sum →
    l ≠ [] → ∃ j, j < l.length ∧ (l.take j).sum ≤ v ∧ v ≤ (l.take (j + 1)).sum := by
  intro l
  induction l with
  | nil => intro _ v _ _ hne; exact absurd rfl hne
  | cons a l ih =>
    intro hl v hv0 hvs _
    by_cases hva : v ≤ a
    · refine ⟨0, by simp, by simpa using hv0, ?_⟩
      show v ≤ a + (0:ℚ)
      rw [add_zero]
      exact hva
    · cases l with
      | nil =>
        exfalso
        rw [List.sum_cons, List.sum_nil, add_zero] at hvs
        exact hva hvs
      | cons b l2 =>
        obtain ⟨j, hj, h1, h2⟩ := ih (fun x hx => hl x (by simp [hx])) (v - a)
          (by push_neg at hva; linarith) (by rw [List.sum_cons] at hvs; linarith) (by simp)
        refine ⟨j + 1, by simpa using hj, ?_, ?_⟩
        · show a + ((b :: l2).take j).sum ≤ v
          linarith
        · show v ≤ a + ((b :: l2).take (j + 1)).sum
          linarith


/-- C2 (amended): on a grid table — every row holding one non-null 1-span
cell per column, cell widths equal to the table-level column widths, and a
uniform cell height per row — the positioning pass places the cell of row
`r`, column `j` at `x` = the sum of the preceding column widths and `y` =
the table height minus the heights of rows `0..r` (the per-column cursor
starts at the table height and drops by each positioned cell's height).
When the column widths are nonnegative and sum to the table width, and the
row heights are nonnegative and sum to the table height, the cell extents
have pairwise disjoint interiors and cover the whole rectangle
`[0, width] x [0, height]`. -/
theorem setpositions_grid_formulas_and_tiling (Wt H : ℚ) (W hs : List ℚ)
    (hWne : W ≠ []) (hhne : hs ≠ [])
    (hwpos : ∀ w ∈ W, 0 ≤ w) (hhpos : ∀ h ∈ hs, 0 ≤ h)
    (hsumw : W.sum = Wt) (hsumh : hs.sum = H) :
    (setpositions (gridtable Wt H W hs)).rows = exprows W H hs ∧
    (∀ r j, r < hs.length → j < W.length →
      (((setpositions (gridtable Wt H W hs)).rows.getD r default).cells).getD j default
        = c2cell W hs H r j) ∧
    (∀ r j r2 j2, r < hs.length → j < W.length → r2 < hs.length → j2 < W.length →
      (r, j) ≠ (r2, j2) → ∀ p : ℚ × ℚ,
        ¬(intmem (c2cell W hs H r j) p ∧ intmem (c2cell W hs H r2 j2) p)) ∧
    (∀ p : ℚ × ℚ, 0 ≤ p.1 → p.1 ≤ Wt → 0 ≤ p.2 → p.2 ≤ H →
      ∃ r, r < hs.length ∧ ∃ j, j < W.length ∧ extmem (c2cell W hs H r j) p) := by
  have hrows : (setpositions (gridtable Wt H W hs)).rows = exprows W H hs := by
    rw [setpositions_grid]
  refine ⟨hrows, ?_, ?_, ?_⟩
  · intro r j hr hj
    rw [hrows, exprows_getD W hs r H hr, exprowcells_getD (hs.getD r 0) (H - (hs.take r).sum) W 0 j 0 hj]
    unfold c2cell
    rw [take_succ_sum hs r hr, Nat.zero_add, zero_add,
      show H - (hs.take r).sum - hs.getD r 0 = H - ((hs.take r).sum + hs.getD r 0) from by ring]
  · intro r j r2 j2 hr hj hr2 hj2 hne p hp
    obtain ⟨h1, h2⟩ := hp
    unfold intmem c2cell at h1 h2
    simp only at h1 h2
    obtain ⟨h1a, h1b, h1c, h1d⟩ := h1
    obtain ⟨h2a, h2b, h2c, h2d⟩ := h2
    by_cases hrr : r = r2
    · subst hrr
      have hjj : j ≠ j2 := by
        intro he
        exact hne (by rw [he])
      rcases Nat.lt_or_ge j j2 with hlt | hge
      · have hm := take_sum_mono W hwpos (j + 1) j2 (by omega)
        have hts := take_succ_sum W j hj
        linarith
      · have hlt2 : j2 < j := by omega
        have hm := take_sum_mono W hwpos (j2 + 1) j (by omega)
        have hts := take_succ_sum W j2 hj2
        linarith
    · rcases Nat.lt_or_ge r r2 with hlt | hge
      · have hm := take_sum_mono hs hhpos (r + 1) r2 (by omega)
        have hts := take_succ_sum hs r2 hr2
        linarith
      · have hlt2 : r2 < r := by omega
        have hm := take_sum_mono hs hhpos (r2 + 1) r (by omega)
        have hts := take_succ_sum hs r hr
        linarith
  · intro p hp1 hp2 hp3 hp4
    obtain ⟨j, hj, hja, hjb⟩ := prefixcover W hwpos p.1 hp1 (by rw [hsumw]; exact hp2) hWne
    obtain ⟨r, hr, hra, hrb⟩ := prefixcover hs hhpos (H - p.2) (by linarith)
      (by rw [hsumh]; linarith) hhne
    refine ⟨r, hr, j, hj, ?_⟩
    unfold extmem c2cell
    simp only
    have htsj := take_succ_sum W j hj
    have htsr := take_succ_sum hs r hr
    refine ⟨hja, by linarith, by linarith, by linarith⟩

/-- Witness for C2 (amended): a 1-column, 2-row unit grid filling a 1 x 2
table. -/
theorem setpositions_grid_formulas_and_tiling_witness :
    (([1] : List ℚ) ≠ []) ∧ (([1, 1] : List ℚ) ≠ []) ∧
    (∀ w ∈ ([1] : List ℚ), 0 ≤ w) ∧ (∀ h ∈ ([1, 1] : List ℚ), 0 ≤ h) ∧
    ([1] : List ℚ).sum = 1 ∧ ([1, 1] : List ℚ).sum = 2 ∧
    (setpositions (gridtable 1 2 [1] [1, 1])).rows = exprows [1] 2 [1, 1] :=
  ⟨by simp, by simp, by norm_num, by norm_num, by norm_num, by norm_num,
   (setpositions_grid_formulas_and_tiling 1 2 [1] [1, 1] (by simp) (by simp)
     (by norm_num) (by norm_num) (by norm_num) (by norm_num)).1⟩

/-- Counterexample for C2 as stated: positioning a one-cell table of height
2 whose single cell is a quarter unit tall leaves the point (1/2, 1/2) of
`[0, width] x [0, height]` outside every cell extent, so the extents do not
tile the table rectangle unconditionally. -/
theorem setpositions_tiling_cex :
    (setpositions c2table).rows
      = [{ cells := [{ value := Value.num 1, x := 0, y := 7/4, width := 1, height := 1/4 }] }] ∧
    (0 ≤ (1:ℚ)/2 ∧ (1:ℚ)/2 ≤ c2table.width ∧ 0 ≤ (1:ℚ)/2 ∧ (1:ℚ)/2 ≤ c2table.height) ∧
    (∀ r ∈ (setpositions c2table).rows, ∀ c ∈ r.cells,
      ¬ extmem c ((1:ℚ)/2, (1:ℚ)/2)) := by
  have hrows : (setpositions c2table).rows
      = [{ cells := [{ value := Value.num 1, x := 0, y := 7/4, width := 1, height := 1/4 }] }] := by
    norm_num [setpositions, c2table, posrows, posrow, decypos, getcolumnwidth]
  refine ⟨hrows, ⟨by norm_num, by norm_num [c2table], by norm_num, by norm_num [c2table]⟩, ?_⟩
  intro r hr c hc
  rw [hrows] at hr
  simp only [List.mem_singleton] at hr
  subst hr
  simp only [List.mem_singleton] at hc
  subst hc
  unfold extmem
  simp only
  intro hx
  norm_num at hx


end PyReports
